import Mathlib

/-!
Verification development for the repo-bulletpoint-extractor repository.

This file gives a shallow embedding of the signal-detection and
formatting/validation layer of the repository:

* `tools/formatting.py` — the Markdown Section Validator/Autofixer
  (`validate_and_autofix_sections`), including faithful models of the
  regular-expression operations it performs;
* `analyzers/signal_analyzer.py` — commit windowing, theme extraction,
  complexity scoring, pattern detection, impact-signal classification,
  file-ownership estimation and PR-pattern analysis;
* `tools/enhanced_formatting.py` — the section Quality Assessor and
  output-quality validator.

Strings are modelled as `List Char`; Python floats are modelled as `ℚ`
(on all values reachable in the scored and compared code paths the float
computations are exact, so the rational model agrees with the float one);
machine-independent `int` arithmetic is modelled with `Nat`/`Int`.
Timestamps (`authored_datetime`) are modelled as integer epoch seconds.

The theorems at the end of the file settle the frozen claims C1–C10.
-/

namespace RepoBullets

/-- Strings are modelled as lists of characters. -/
abbrev Str := List Char

/-- Coerce a Lean string literal into the model. -/
def str (s : String) : Str := s.data

/-- Python whitespace (`str.strip`, `re` class for blanks): space, tab,
newline, carriage return, vertical tab, form feed. -/
def isWS (c : Char) : Bool :=
  (c == ' ') || (c == '\t') || (c == '\n') || (c == '\r') ||
  (c == Char.ofNat 11) || (c == Char.ofNat 12)

/-- Python `str.lstrip()`. -/
def lstrip (s : Str) : Str := s.dropWhile isWS

/-- Python `str.rstrip()`. -/
def rstrip (s : Str) : Str := (s.reverse.dropWhile isWS).reverse

/-- Python `str.strip()`. -/
def strip (s : Str) : Str := lstrip (rstrip s)

/-- Python `str.lower()` (ASCII fragment). -/
def lowerStr (s : Str) : Str := s.map Char.toLower

/-- Line boundary characters recognised by Python `str.splitlines`. -/
def isLineBoundary (c : Char) : Bool :=
  (c == '\n') || (c == '\r') || (c == Char.ofNat 11) || (c == Char.ofNat 12) ||
  (c == Char.ofNat 28) || (c == Char.ofNat 29) || (c == Char.ofNat 30) ||
  (c == Char.ofNat 133) || (c == Char.ofNat 8232) || (c == Char.ofNat 8233)

/-- Helper for `splitlines`: `acc` is the current line, reversed; the
flag records that the previous character was `'\r'`, so that a directly
following `'\n'` does not open a new line. -/
def splitlinesAux : Bool → Str → Str → List Str
  | _, acc, [] => if acc.isEmpty then [] else [acc.reverse]
  | prevCR, acc, c :: cs =>
    if prevCR && c == '\n' then splitlinesAux false acc cs
    else if c = '\r' then acc.reverse :: splitlinesAux true [] cs
    else if isLineBoundary c then acc.reverse :: splitlinesAux false [] cs
    else splitlinesAux false (c :: acc) cs

/-- Python `str.splitlines()`: split at line boundaries (treating `\r\n`
as one boundary), no empty trailing line. -/
def splitlines (s : Str) : List Str := splitlinesAux false [] s

/-- Python `'\n'.join(lines)`. -/
def joinNL (ls : List Str) : Str := List.intercalate ['\n'] ls

/-- Helper for `splitOnNL`. -/
def splitOnNLAux : Str → Str → List Str
  | acc, [] => [acc.reverse]
  | acc, c :: cs =>
    if c = '\n' then acc.reverse :: splitOnNLAux [] cs
    else splitOnNLAux (c :: acc) cs

/-- Python `text.split('\n')`: keeps empty pieces, `''` gives `['']`. -/
def splitOnNL (s : Str) : List Str := splitOnNLAux [] s

/-- Python substring test `needle in hay`. -/
def containsSub (hay needle : Str) : Bool :=
  needle.isPrefixOf hay ||
    match hay with
    | [] => false
    | _ :: t => containsSub t needle

/-- Does some suffix (including the whole string and the empty suffix)
satisfy `p`?  Models `re.search` given a matcher for one position. -/
def anyTail (p : Str → Bool) : Str → Bool
  | [] => p []
  | c :: cs => p (c :: cs) || anyTail p cs

/-- Consume a literal, case-insensitively; return the rest on success. -/
def dropCI : Str → Str → Option Str
  | [], s => some s
  | _ :: _, [] => none
  | p :: ps, c :: cs => if p.toLower == c.toLower then dropCI ps cs else none

/-- Consume a literal, case-sensitively; return the rest on success. -/
def dropLit : Str → Str → Option Str
  | [], s => some s
  | _ :: _, [] => none
  | p :: ps, c :: cs => if p == c then dropLit ps cs else none

/-- Match `\s*:\s*` (as in the label-normalising patterns); returns
whether the last consumed character was a newline, and the rest. -/
def afterLabelColon (r : Str) : Option (Bool × Str) :=
  match r.dropWhile isWS with
  | ':' :: r2 =>
    some ((r2.takeWhile isWS).getLast? == some '\n', r2.dropWhile isWS)
  | _ => none

/-- Matcher for the pattern `bullet\s*[- ]?point\s*:\s*` (case-insensitive),
from `re.sub(r'(?im)^bullet\s*[- ]?point\s*:\s*', ...)` in
`validate_and_autofix_sections`.  Returns `(endsNL, rest)`. -/
def bulletLabelMatch (s : Str) : Option (Bool × Str) :=
  match dropCI (str "bullet") s with
  | none => none
  | some r1 =>
    let r2 := r1.dropWhile isWS
    match r2 with
    | '-' :: r2b =>
      (match dropCI (str "point") r2b with
       | some r3 => afterLabelColon r3
       | none => none)
    | _ =>
      (match dropCI (str "point") r2 with
       | some r3 => afterLabelColon r3
       | none => none)

/-- Matcher for the pattern `description\s*:\s*` (case-insensitive). -/
def descLabelMatch (s : Str) : Option (Bool × Str) :=
  match dropCI (str "description") s with
  | some r1 => afterLabelColon r1
  | none => none

/-- The scanning engine of `re.sub` for patterns anchored with `(?m)^`:
at the start of the text and right after each `'\n'` try the matcher and
replace the consumed span; otherwise copy characters.  Fuel-driven so
that it reduces definitionally; fuel `s.length` always suffices since
every matcher consumes at least one character. -/
def scanSubF (m : Str → Option (Bool × Str)) (repl : Str) :
    Nat → Bool → Str → Str
  | 0, _, s => s
  | _ + 1, _, [] => []
  | fuel + 1, atLS, c :: cs =>
    if atLS then
      match m (c :: cs) with
      | some (endsNL, rest) => repl ++ scanSubF m repl fuel endsNL rest
      | none => c :: scanSubF m repl fuel (c == '\n') cs
    else c :: scanSubF m repl fuel (c == '\n') cs

/-- Multiline-anchored `re.sub` over a whole text. -/
def scanSub (m : Str → Option (Bool × Str)) (repl : Str) (s : Str) : Str :=
  scanSubF m repl s.length true s

/-- Multiline-anchored `re.search` (Boolean): does the matcher succeed at
the start of the text or right after some `'\n'`? -/
def searchLS (m : Str → Option (Bool × Str)) : Bool → Str → Bool
  | _, [] => false
  | atLS, c :: cs => (atLS && (m (c :: cs)).isSome) || searchLS m (c == '\n') cs

/-- Matcher for `\*\*LABEL:\*\*\s*(.*)$` at one position: consume the bold
label verbatim, then a greedy whitespace run (which may cross newlines,
as `\s*` does), then capture the remainder of the line.  Returns
`(endsNL, capturedValue, rest)`. -/
def labelValueMatch (label : Str) (s : Str) : Option (Bool × Str × Str) :=
  (dropLit (str "**" ++ label ++ str ":**") s).map (fun r1 =>
    let w := r1.takeWhile isWS
    let r2 := r1.dropWhile isWS
    let val := r2.takeWhile (fun c => !(c == '\n'))
    let rest := r2.dropWhile (fun c => !(c == '\n'))
    (val.isEmpty && (w.getLast? == some '\n'), val, rest))

/-- Matcher used for `re.search(r'(?m)^\*\*Bullet Point:\*\*\s*', ...)` and
its `Description` twin: label presence at a line start. -/
def labelSearchMatch (label : Str) (s : Str) : Option (Bool × Str) :=
  if (str "**" ++ label ++ str ":**").isPrefixOf s then some (false, s) else none

/-- One step of `re.finditer(r'(?m)^\*\*(Bullet Point|Description):\*\*\s*(.*)$', ...)`:
alternation tries `Bullet Point` first.  Returns `(isBulletPoint, endsNL, val, rest)`. -/
def anyLabelMatch (s : Str) : Option (Bool × Bool × Str × Str) :=
  match labelValueMatch (str "Bullet Point") s with
  | some (e, v, r) => some (true, e, v, r)
  | none =>
    match labelValueMatch (str "Description") s with
    | some (e, v, r) => some (false, e, v, r)
    | none => none

/-- Collect, in order, the `(isBulletPoint, rawValue)` pairs produced by the
label `finditer` over a text.  Fuel-driven like `scanSubF`. -/
def findLabelsF : Nat → Bool → Str → List (Bool × Str)
  | 0, _, _ => []
  | _ + 1, _, [] => []
  | fuel + 1, atLS, c :: cs =>
    if atLS then
      match anyLabelMatch (c :: cs) with
      | some (isBP, endsNL, val, rest) => (isBP, val) :: findLabelsF fuel endsNL rest
      | none => findLabelsF fuel (c == '\n') cs
    else findLabelsF fuel (c == '\n') cs

/-- All labelled values of a section body, in text order. -/
def findLabels (s : Str) : List (Bool × Str) := findLabelsF s.length true s

/-- Matcher for the removal pattern `(?m)^\*\*Bullet Point:\*\*\s*.*$`. -/
def bpLineRemMatch (s : Str) : Option (Bool × Str) :=
  match labelValueMatch (str "Bullet Point") s with
  | some (e, _, r) => some (e, r)
  | none => none

/-- One `<br>`-token chain parser for the pattern `(\s*<br\s*/?>\s*)+$`
(case-insensitive): does `s` consist entirely of one or more groups? -/
def brChainAux : Nat → Str → Bool
  | 0, _ => false
  | fuel + 1, s =>
    match s.dropWhile isWS with
    | '<' :: s2 =>
      (match dropCI (str "br") s2 with
       | none => false
       | some s3 =>
         let s4 := s3.dropWhile isWS
         let s5 := match s4 with
           | '/' :: t => t
           | _ => s4
         match s5 with
         | '>' :: s6 =>
           let s7 := s6.dropWhile isWS
           s7.isEmpty || brChainAux fuel s7
         | _ => false)
    | _ => false

/-- Does `s` match `(\s*<br\s*/?>\s*)+` exactly (anchored at both ends)? -/
def isBrChain (s : Str) : Bool := brChainAux s.length s

/-- Helper for `stripBr`: remove the suffix starting at the leftmost
position where the anchored chain matches. -/
def stripBrF : Nat → Str → Str
  | 0, s => s
  | _ + 1, [] => []
  | fuel + 1, c :: cs => if isBrChain (c :: cs) then [] else c :: stripBrF fuel cs

/-- Python `re.sub(r"(\s*<br\s*/?>\s*)+$", "", val, flags=re.I)`: strip
trailing line-break markers. -/
def stripBr (s : Str) : Str := stripBrF s.length s

/-- Helper for `splitSentence`: `revAcc` is the consumed text, reversed;
splits at the first whitespace preceded by `.`, `!` or `?`. -/
def splitSentenceAux : Str → Str → Option (Str × Str)
  | _, [] => none
  | revAcc, c :: cs =>
    if isWS c && (revAcc.head? == some '.' || revAcc.head? == some '!' ||
                  revAcc.head? == some '?') then
      some (revAcc.reverse, (c :: cs).dropWhile isWS)
    else splitSentenceAux (c :: revAcc) cs

/-- Python `re.split(r'(?<=[.!?])\s+', s, 1)`: `some (before, after)` when a
sentence boundary exists, `none` otherwise. -/
def splitSentence (s : Str) : Option (Str × Str) := splitSentenceAux [] s

/-- The body text of a section after joining, stripping and label
normalisation (lines 93–96 of `validate_and_autofix_sections`). -/
def normalizeBody (body : List Str) : Str :=
  scanSub descLabelMatch (str "**Description:** ")
    (scanSub bulletLabelMatch (str "**Bullet Point:** ") (strip (joinNL body)))

/-- The body fixer of `validate_and_autofix_sections` (lines 93–131): given
the collected body lines of one `## ` section, emit the canonical
`**Bullet Point:**` and `**Description:**` entries. -/
def fixBody (body : List Str) : List Str :=
  let bt := normalizeBody body
  if searchLS (labelSearchMatch (str "Bullet Point")) true bt ||
     searchLS (labelSearchMatch (str "Description")) true bt then
    let labels := findLabels bt
    let bp? := ((labels.filter (fun p => p.1)).head?).map
      (fun p => stripBr (strip p.2))
    let desc? := ((labels.filter (fun p => !p.1)).head?).map
      (fun p => stripBr (strip p.2))
    let desc := match desc? with
      | some d => d
      | none =>
        let rest := strip (scanSub bpLineRemMatch [] bt)
        if rest.isEmpty then str "Summary not provided." else rest
    let bp := match bp? with
      | some b => b
      | none =>
        match splitSentence desc with
        | some (a, _) => a
        | none => desc
    [str "**Bullet Point:** " ++ bp ++ str " <br />",
     str "**Description:** " ++ desc]
  else if bt.isEmpty then
    [str "**Bullet Point:** Summary unavailable. <br />",
     str "**Description:** Details unavailable."]
  else
    let bp := match splitSentence (strip bt) with
      | some (a, _) => strip a
      | none => strip (strip bt)
    let desc := match splitSentence (strip bt) with
      | some (_, b) => strip b
      | none => strip bt
    [str "**Bullet Point:** " ++ bp ++ str " <br />",
     str "**Description:** " ++ desc]

/-- A list-item line: `line.lstrip().startswith('- ')`. -/
def isListItem (l : Str) : Bool := (str "- ").isPrefixOf (lstrip l)

/-- A blank line: `line.strip() == ''`. -/
def isBlank (l : Str) : Bool := (strip l).isEmpty

/-- A section heading: `line.startswith('## ')`. -/
def isSectionStart (l : Str) : Bool := (str "## ").isPrefixOf l

/-- The line loop of `validate_and_autofix_sections` (lines 66–135), as a
state machine: `none` = outside a section, `some body` = collecting the
body lines (reversed) of the current section. -/
def autofixMach : Option (List Str) → List Str → List Str
  | none, [] => []
  | some body, [] => fixBody body.reverse
  | none, l :: ls =>
    if isListItem l then autofixMach none ls
    else if isBlank l then l :: autofixMach none ls
    else if isSectionStart l then strip l :: autofixMach (some []) ls
    else l :: autofixMach none ls
  | some body, l :: ls =>
    if isSectionStart l then
      fixBody body.reverse ++ (strip l :: autofixMach (some []) ls)
    else if isListItem l then autofixMach (some body) ls
    else autofixMach (some (l :: body)) ls

/-- The full line pass, including the special case that preserves an H1
heading on line 0. -/
def autofixLines : List Str → List Str
  | [] => []
  | l :: ls =>
    if (str "# ").isPrefixOf l then l :: autofixMach none ls
    else autofixMach none (l :: ls)

/-- Embedding of `validate_and_autofix_sections` from `tools/formatting.py`. -/
def validate_and_autofix_sections (text : Str) : Str :=
  if text.isEmpty then text else joinNL (autofixLines (splitlines text))

/-! ## Signal analyzer (`analyzers/signal_analyzer.py`) -/

/-- Python `min(a, b)` on rationals, written as an explicit conditional
so that it evaluates definitionally; equal to `min` (see `pyMin_eq_min`). -/
def pyMin (a b : ℚ) : ℚ := if a ≤ b then a else b

/-- A git commit record as consumed by the analyzer: `message`, `files`,
`insertions`, `deletions` and `authored_datetime` (modelled as integer
epoch seconds; the ISO strings sort in the same order). -/
structure Commit where
  message : Str
  files : List Str
  insertions : Nat
  deletions : Nat
  authored : Int
deriving DecidableEq, Repr, Inhabited

/-- Sum of insertions plus deletions over a commit list. -/
def totalChanges (cs : List Commit) : Nat :=
  cs.foldl (fun a c => a + c.insertions + c.deletions) 0

/-- Keep the first occurrence of each element, in order (dict/set
insertion order). -/
def firstOccur {α : Type} [BEq α] (l : List α) : List α :=
  l.foldl (fun acc x => if acc.contains x then acc else acc ++ [x]) []

/-- Stable ascending insertion by authored time: a new commit is placed
after all commits with an authored time less than or equal to its own,
as Python's stable `sorted` does. -/
def insByAuthored (c : Commit) : List Commit → List Commit
  | [] => [c]
  | y :: ys =>
    if y.authored ≤ c.authored then y :: insByAuthored c ys else c :: y :: ys

/-- Stable sort ascending by authored time
(`sorted(commits, key=lambda c: c['authored_datetime'])`). -/
def sortByAuthored (l : List Commit) : List Commit :=
  l.foldl (fun acc c => insByAuthored c acc) []

/-- Window-building loop of `_group_commits_by_time` over the sorted
commits: `ws` is the window-start timestamp, `cur` the current window
reversed.  A closing window is kept only when it has more than one
member. -/
def groupAux (days : Int) : Int → List Commit → List Commit → List (List Commit)
  | _, cur, [] => if cur.length > 1 then [cur.reverse] else []
  | ws, cur, c :: cs =>
    if c.authored - ws ≤ days * 86400 then groupAux days ws (c :: cur) cs
    else
      (if cur.length > 1 then [cur.reverse] else []) ++
        groupAux days c.authored [c] cs

/-- Embedding of `_group_commits_by_time`: sort ascending by authored
time, then bucket into windows of span at most `days` days. -/
def group_commits_by_time (commits : List Commit) (days : Int) :
    List (List Commit) :=
  match sortByAuthored commits with
  | [] => []
  | c :: cs => groupAux days c.authored [c] cs

/-- ASCII letter test (Python `str.isalpha`, ASCII fragment). -/
def isAlphaChar (c : Char) : Bool :=
  (decide ('a' ≤ c) && decide (c ≤ 'z')) || (decide ('A' ≤ c) && decide (c ≤ 'Z'))

/-- Helper for `splitWS`: Python `str.split()` with no argument. -/
def splitWSAux : Str → Str → List Str
  | acc, [] => if acc.isEmpty then [] else [acc.reverse]
  | acc, c :: cs =>
    if isWS c then
      if acc.isEmpty then splitWSAux [] cs else acc.reverse :: splitWSAux [] cs
    else splitWSAux (c :: acc) cs

/-- Python `str.split()`: split on whitespace runs, dropping empties. -/
def splitWS (s : Str) : List Str := splitWSAux [] s

/-- Python `str.title()` restricted to a single lowercase word:
capitalise the first character. -/
def titleWord : Str → Str
  | [] => []
  | c :: cs => c.toUpper :: cs

/-- First key attaining the maximal count, in insertion order — the head
of `Counter(...).most_common(...)`, whose sort is stable. -/
def pickMaxCount : List (Str × Nat) → Option (Str × Nat)
  | [] => none
  | p :: t =>
    match pickMaxCount t with
    | none => some p
    | some q => if q.2 > p.2 then some q else some p

/-- Embedding of `_extract_theme`: tokenise the lowered messages on
whitespace, keep alphabetic tokens longer than 3 characters, and return
the capitalised most frequent token when its frequency is at least 2. -/
def extract_theme (messages : List Str) : Option Str :=
  let words := messages.flatMap (fun m => splitWS (lowerStr m))
  let meaningful := words.filter (fun w => w.length > 3 && w.all isAlphaChar)
  if meaningful.isEmpty then none
  else
    let counts := (firstOccur meaningful).map (fun k => (k, meaningful.count k))
    match pickMaxCount counts with
    | some (w, n) => if n ≥ 2 then some (titleWord w) else none
    | none => none

/-- Embedding of `os.path.dirname`: the part before the last `/`, with
trailing slashes stripped unless the head is all slashes. -/
def dirname (p : Str) : Str :=
  let head := (p.reverse.dropWhile (fun c => !(c == '/'))).reverse
  if head.isEmpty then []
  else if head.all (fun c => c == '/') then head
  else (head.reverse.dropWhile (fun c => c == '/')).reverse

/-- Embedding of `_calculate_complexity_score`. -/
def calculate_complexity_score (commits : List Commit) (files : List Str) : Nat :=
  10 * commits.length + 5 * (firstOccur (files.map dirname)).length +
    totalChanges commits / 100

/-- A detected commit pattern (`CommitPattern` dataclass). -/
structure CommitPattern where
  theme : Str
  commits : List Commit
  files_affected : List Str
  time_span : Int × Int
  total_changes : Nat
  complexity_score : Nat
deriving DecidableEq, Repr, Inhabited

/-- Minimum authored time of a nonempty commit list. -/
def minAuthored : List Commit → Int
  | [] => 0
  | c :: cs => cs.foldl (fun a x => min a x.authored) c.authored

/-- Maximum authored time of a nonempty commit list. -/
def maxAuthored : List Commit → Int
  | [] => 0
  | c :: cs => cs.foldl (fun a x => max a x.authored) c.authored

/-- Promote one time window to a pattern, when it qualifies
(`_detect_commit_patterns`, loop body). -/
def windowToPattern (w : List Commit) : Option CommitPattern :=
  if w.length < 3 then none
  else
    let allFiles := firstOccur (w.flatMap (fun c => c.files))
    match extract_theme (w.map (fun c => c.message)) with
    | some th =>
      if !th.isEmpty && decide (allFiles.length > 1) then
        some {
          theme := th
          commits := w
          files_affected := allFiles
          time_span := (minAuthored w, maxAuthored w)
          total_changes := totalChanges w
          complexity_score := calculate_complexity_score w allFiles }
      else none
    | none => none

/-- Stable descending insertion by complexity score: a new pattern is
placed after all patterns whose score is greater than or equal to its
own, as Python's stable `sorted(..., reverse=True)` does. -/
def insByComplexity (p : CommitPattern) : List CommitPattern → List CommitPattern
  | [] => [p]
  | y :: ys =>
    if p.complexity_score ≤ y.complexity_score then y :: insByComplexity p ys
    else p :: y :: ys

/-- Stable sort descending by complexity score. -/
def sortByComplexityDesc (l : List CommitPattern) : List CommitPattern :=
  l.foldl (fun acc p => insByComplexity p acc) []

/-- Embedding of `_detect_commit_patterns`: qualifying 7-day windows,
sorted by complexity score descending (stable). -/
def detect_commit_patterns (commits : List Commit) : List CommitPattern :=
  sortByComplexityDesc ((group_commits_by_time commits 7).filterMap windowToPattern)

/-- The four impact-signal types. -/
inductive SigType where
  | performance
  | architecture
  | reliability
  | feature
deriving DecidableEq, Repr, Inhabited

/-- A detected impact signal (`ImpactSignal` dataclass). -/
structure ImpactSignal where
  type : SigType
  evidence : List Str
  estimated_impact : Str
  confidence : ℚ
  files_involved : List Str
  metrics_hints : List Str
deriving DecidableEq, Repr, Inhabited

/-- The fixed keyword buckets of `_detect_impact_signals`, in source
order. -/
def keyword_groups : List (SigType × List Str) :=
  [(SigType.performance,
    [str "optimize", str "performance", str "speed", str "latency",
     str "cache", str "async", str "parallel"]),
   (SigType.architecture,
    [str "refactor", str "architecture", str "design", str "pattern",
     str "structure", str "migration"]),
   (SigType.reliability,
    [str "fix", str "bug", str "error", str "exception", str "test",
     str "security", str "validation"]),
   (SigType.feature,
    [str "add", str "implement", str "feature", str "endpoint", str "api",
     str "ui", str "component"])]

/-- The keyword bucket of one signal type. -/
def bucketOf (ty : SigType) : List Str :=
  match ty with
  | SigType.performance => [str "optimize", str "performance", str "speed",
      str "latency", str "cache", str "async", str "parallel"]
  | SigType.architecture => [str "refactor", str "architecture", str "design",
      str "pattern", str "structure", str "migration"]
  | SigType.reliability => [str "fix", str "bug", str "error", str "exception",
      str "test", str "security", str "validation"]
  | SigType.feature => [str "add", str "implement", str "feature",
      str "endpoint", str "api", str "ui", str "component"]

/-- Does a commit message (lowered) contain any keyword of the bucket? -/
def commitMatches (kws : List Str) (c : Commit) : Bool :=
  kws.any (fun k => containsSub (lowerStr c.message) k)

/-- Embedding of `_estimate_impact_level`. -/
def estimate_impact_level (total_changes files_count : Nat) : Str :=
  if total_changes > 1000 || files_count > 10 then str "High"
  else if total_changes > 200 || files_count > 3 then str "Medium"
  else str "Low"

/-- Decimal rendering of a natural number. -/
def natStr (n : Nat) : Str := Nat.toDigits 10 n

/-- Embedding of `_generate_metrics_hints`. -/
def generate_metrics_hints (t : SigType) (changes files : Nat) : List Str :=
  match t with
  | SigType.performance =>
    [str "~" ++ natStr (min 50 (changes / 20)) ++ str "% latency reduction estimate",
     str "~" ++ natStr (min 3 files) ++ str "x throughput improvement potential"]
  | SigType.reliability =>
    [str "~" ++ natStr (min 90 (changes / 10)) ++ str "% error reduction estimate",
     str "Affected " ++ natStr files ++ str " critical modules"]
  | SigType.architecture =>
    [str "Refactored " ++ natStr files ++ str " components",
     str "~" ++ natStr changes ++ str " lines of architectural changes"]
  | SigType.feature =>
    [str "Delivered " ++ natStr files ++ str " new components",
     str "~" ++ natStr changes ++ str " lines of feature code"]

/-- Build the signal of one keyword bucket, when any commit matches
(`_detect_impact_signals`, loop body). -/
def mkSignal (commits : List Commit) (ty : SigType) (kws : List Str) :
    Option ImpactSignal :=
  let matching := commits.filter (commitMatches kws)
  if matching.isEmpty then none
  else
    let allFiles := firstOccur (matching.flatMap (fun c => c.files))
    let total := totalChanges matching
    some {
      type := ty
      evidence := (matching.take 5).map (fun c => c.message.take 100)
      estimated_impact := estimate_impact_level total allFiles.length
      confidence := pyMin 1 ((matching.length : ℚ) / 10 + (total : ℚ) / 1000)
      files_involved := allFiles
      metrics_hints := generate_metrics_hints ty total allFiles.length }

/-- Embedding of `_detect_impact_signals`. -/
def detect_impact_signals (commits : List Commit) : List ImpactSignal :=
  keyword_groups.filterMap (fun g => mkSignal commits g.1 g.2)

/-- Insertion-ordered counter update (`defaultdict(int)` increment). -/
def upsert : List (Str × Nat) → Str → List (Str × Nat)
  | [], f => [(f, 1)]
  | (k, n) :: t, f => if k == f then (k, n + 1) :: t else (k, n) :: upsert t f

/-- Per-file commit counts, in first-touch order. -/
def file_commit_counts (commits : List Commit) : List (Str × Nat) :=
  commits.foldl (fun m c => c.files.foldl upsert m) []

/-- Embedding of `_calculate_file_ownership` (the `all_files` argument is
unused in the source as well). -/
def calculate_file_ownership (commits : List Commit) (_allFiles : List Str) :
    List (Str × ℚ) :=
  (file_commit_counts commits).map (fun p => (p.1, pyMin 1 ((p.2 : ℚ) / 10)))

/-- The `ownership_map` entry of `_compile_signals` (line 421): retain
only entries strictly above 0.3. -/
def compile_ownership_map (m : List (Str × ℚ)) : List (Str × ℚ) :=
  m.filter (fun p => decide ((3 : ℚ) / 10 < p.2))

/-- A pull-request record as consumed by `_analyze_pr_patterns`. -/
structure PR where
  user : Str
  merged : Bool
  additions : Nat
  deletions : Nat
deriving DecidableEq, Repr

/-- The aggregate returned by `_analyze_pr_patterns` for a nonempty PR
list. -/
structure PRAnalysis where
  total_authored : Nat
  merged_count : Nat
  avg_additions : ℚ
  avg_deletions : ℚ
  large_prs : Nat
deriving DecidableEq, Repr

/-- Embedding of `_analyze_pr_patterns`: an empty PR list yields the
empty dict (modelled as `none`). -/
def analyze_pr_patterns (aliases : List Str) (prs : List PR) :
    Option PRAnalysis :=
  if prs.isEmpty then none
  else
    let authored := prs.filter (fun pr => aliases.contains pr.user)
    some {
      total_authored := authored.length
      merged_count := (authored.filter (fun pr => pr.merged)).length
      avg_additions :=
        ((authored.foldl (fun a pr => a + pr.additions) 0 : Nat) : ℚ) /
          ((max 1 authored.length : Nat) : ℚ)
      avg_deletions :=
        ((authored.foldl (fun a pr => a + pr.deletions) 0 : Nat) : ℚ) /
          ((max 1 authored.length : Nat) : ℚ)
      large_prs := (authored.filter (fun pr => pr.additions > 500)).length }

/-! ## Quality assessor (`tools/enhanced_formatting.py`) -/

/-- ASCII digit test (`\d` over the lowered text). -/
def isDigitChar (c : Char) : Bool := decide ('0' ≤ c) && decide (c ≤ '9')

/-- Word character for `\b` boundaries: letters, digits, underscore. -/
def isWordChar (c : Char) : Bool :=
  isDigitChar c || isAlphaChar c || c == '_'

/-- Combinator: a maximal nonempty digit run, then `k` on the rest
(greedy `\d+` followed by a non-digit continuation). -/
def digitsThen (k : Str → Bool) (s : Str) : Bool :=
  !(s.takeWhile isDigitChar).isEmpty && k (s.dropWhile isDigitChar)

/-- One-position matcher for the nine `METRICS_PATTERNS` regexes (the
assessed text is already lowercased, so only lowercase letters occur):
percentages, multipliers, millisecond and second durations, decimals
with unit, dollar amounts, thousands and millions shorthand with a word
boundary, and counted-noun phrases. -/
def metricsAt (s : Str) : Bool :=
  digitsThen (fun r => r.head? == some '%') s ||
  digitsThen (fun r => r.head? == some 'x') s ||
  digitsThen (fun r => (str "ms").isPrefixOf r) s ||
  digitsThen (fun r => r.head? == some 's') s ||
  digitsThen (fun r =>
    (r.head? == some '.') && !(r.tail.takeWhile isDigitChar).isEmpty) s ||
  ((s.head? == some '$') && !(s.tail.takeWhile isDigitChar).isEmpty) ||
  digitsThen (fun r =>
    (r.head? == some 'k') && r.tail.head?.all (fun c => !isWordChar c)) s ||
  digitsThen (fun r =>
    (r.head? == some 'm') && r.tail.head?.all (fun c => !isWordChar c)) s ||
  digitsThen (fun r =>
    (r.head? == some ' ') &&
      ((str "user").isPrefixOf r.tail || (str "file").isPrefixOf r.tail ||
       (str "request").isPrefixOf r.tail ||
       (str "transaction").isPrefixOf r.tail ||
       (str "error").isPrefixOf r.tail)) s

/-- Any metrics pattern matches somewhere in the text
(`any(re.search(pattern, full_text, re.IGNORECASE) ...)`). -/
def has_metrics_check (ft : Str) : Bool := anyTail metricsAt ft

/-- The `TECHNICAL_KEYWORDS` table, flattened in source (category, list)
order; the per-category distinct-present counts sum to the count of
present entries of this list. -/
def technical_keywords : List Str :=
  [str "microservices", str "api", str "rest", str "graphql", str "database",
   str "cache", str "queue",
   str "latency", str "throughput", str "optimization", str "scaling",
   str "load", str "performance",
   str "docker", str "kubernetes", str "aws", str "azure", str "gcp",
   str "ci/cd", str "deployment",
   str "python", str "javascript", str "typescript", str "java", str "go",
   str "rust", str "kotlin",
   str "react", str "angular", str "vue", str "django", str "flask",
   str "spring", str "express",
   str "postgresql", str "mysql", str "mongodb", str "redis",
   str "elasticsearch", str "dynamodb",
   str "git", str "jira", str "jenkins", str "terraform", str "ansible",
   str "prometheus", str "grafana"]

/-- The passive-voice indicator words. -/
def passive_indicators : List Str :=
  [str "was", str "were", str "been", str "being"]

/-- Quality assessment record (`SectionQuality` dataclass). -/
structure SectionQuality where
  has_metrics : Bool
  has_technical_terms : Bool
  appropriate_length : Bool
  active_voice : Bool
  score : ℚ
  suggestions : List Str
deriving DecidableEq, Repr

/-- Embedding of `EnhancedFormatter.assess_section_quality`. -/
def assess_section_quality (title bullet_point description : Str) :
    SectionQuality :=
  let full_text := lowerStr (title ++ str " " ++ bullet_point ++ str " " ++ description)
  let has_metrics := has_metrics_check full_text
  let tech_count :=
    (technical_keywords.filter (fun t => containsSub full_text t)).length
  let has_technical_terms := decide (tech_count ≥ 2)
  let desc_words := (splitWS description).length
  let appropriate_length := decide (20 ≤ desc_words) && decide (desc_words ≤ 80)
  let passive_count :=
    (passive_indicators.filter (fun w => containsSub full_text w)).length
  let active_voice := decide (passive_count ≤ 1)
  let score : ℚ :=
    (if has_metrics then (1 : ℚ) else 0) * (3 / 10) +
    (if has_technical_terms then (1 : ℚ) else 0) * (3 / 10) +
    (if appropriate_length then (1 : ℚ) else 0) * (1 / 5) +
    (if active_voice then (1 : ℚ) else 0) * (1 / 5)
  let suggestions :=
    (if !has_metrics then
      [str "Add specific metrics (percentages, time improvements, scale)"]
     else []) ++
    (if !has_technical_terms then
      [str "Include more technical terminology and technologies"]
     else []) ++
    (if !appropriate_length then
      (if desc_words < 20 then
        [str "Expand description with more technical details"]
       else [str "Condense description to focus on key achievements"])
     else []) ++
    (if !active_voice then [str "Use more active voice constructions"] else [])
  { has_metrics := has_metrics
    has_technical_terms := has_technical_terms
    appropriate_length := appropriate_length
    active_voice := active_voice
    score := score
    suggestions := suggestions }

/-- A parsed section of `_extract_sections`: a dict that may lack keys. -/
structure PySection where
  title : Option Str := none
  bullet_point : Option Str := none
  description : Option Str := none
deriving DecidableEq, Repr, Inhabited

/-- Truthiness of the section dict: some key has been assigned. -/
def sectionNonEmpty (s : PySection) : Bool :=
  s.title.isSome || s.bullet_point.isSome || s.description.isSome

/-- Line loop of `_extract_sections`. -/
def extractAux : PySection → List Str → List PySection
  | cur, [] => if sectionNonEmpty cur then [cur] else []
  | cur, l0 :: ls =>
    let l := strip l0
    if (str "## ").isPrefixOf l then
      (if sectionNonEmpty cur then [cur] else []) ++
        extractAux { title := some (strip (l.drop 3)) } ls
    else if (str "**Bullet Point:**").isPrefixOf l then
      extractAux { cur with bullet_point := some (strip (l.drop 17)) } ls
    else if (str "**Description:**").isPrefixOf l then
      extractAux { cur with description := some (strip (l.drop 16)) } ls
    else extractAux cur ls

/-- Embedding of `EnhancedFormatter._extract_sections`. -/
def extract_sections (text : Str) : List PySection :=
  extractAux {} (splitOnNL text)

/-- An entry of the `issues` list of `validate_output_quality`, modelled
structurally (the source renders these as formatted strings). -/
inductive SectionIssue where
  | missingComponents (idx : Nat)
  | lowQuality (idx : Nat) (title : Str) (score : ℚ)
deriving DecidableEq, Repr

/-- The report dict of `validate_output_quality` when sections exist. -/
structure QualityReport where
  valid : Bool
  average_quality : ℚ
  section_count : Nat
  issues : List SectionIssue
  suggestions : List (Nat × Str)
  dist_high : Nat
  dist_medium : Nat
  dist_low : Nat
deriving DecidableEq, Repr

/-- Return shape of `validate_output_quality`: the no-sections early
return carries no `average_quality` field. -/
inductive ValidationResult where
  | noSections
  | report (r : QualityReport)
deriving DecidableEq, Repr

/-- The per-section loop of `validate_output_quality` (1-based
enumeration): produces issues, prefixed suggestions and the quality
scores of the scorable sections, in order. -/
def sectionLoop : Nat → List PySection → List SectionIssue × List (Nat × Str) × List ℚ
  | _, [] => ([], [], [])
  | i, s :: rest =>
    let r := sectionLoop (i + 1) rest
    let title := s.title.getD []
    let bullet := s.bullet_point.getD []
    let desc := s.description.getD []
    if title.isEmpty || bullet.isEmpty || desc.isEmpty then
      (SectionIssue.missingComponents i :: r.1, r.2.1, r.2.2)
    else
      let q := assess_section_quality title bullet desc
      if q.score < 1 / 2 then
        (SectionIssue.lowQuality i title q.score :: r.1,
         q.suggestions.map (fun t => (i, t)) ++ r.2.1,
         q.score :: r.2.2)
      else (r.1, r.2.1, q.score :: r.2.2)

/-- The quality scores collected by `validate_output_quality` on a text. -/
def quality_scores_of (text : Str) : List ℚ :=
  (sectionLoop 1 (extract_sections text)).2.2

/-- Embedding of `EnhancedFormatter.validate_output_quality`. -/
def validate_output_quality (text : Str) : ValidationResult :=
  let sections := extract_sections text
  if sections.isEmpty then ValidationResult.noSections
  else
    let t := sectionLoop 1 sections
    let issues := t.1
    let suggestions := t.2.1
    let qs := t.2.2
    ValidationResult.report {
      valid := issues.isEmpty
      average_quality :=
        if qs.isEmpty then 0 else (qs.foldl (· + ·) 0) / (qs.length : ℚ)
      section_count := sections.length
      issues := issues
      suggestions := suggestions.take 5
      dist_high := (qs.filter (fun s => decide ((4 : ℚ) / 5 < s))).length
      dist_medium :=
        (qs.filter (fun s => decide ((1 : ℚ) / 2 ≤ s) && decide (s ≤ 4 / 5))).length
      dist_low := (qs.filter (fun s => decide (s < (1 : ℚ) / 2))).length }

/-! ## Helper lemmas -/

theorem mkSignal_type {commits : List Commit} {ty : SigType} {kws : List Str}
    {s : ImpactSignal} (h : mkSignal commits ty kws = some s) : s.type = ty := by
  simp only [mkSignal] at h
  split at h
  · exact absurd h (by simp)
  · exact (Option.some_injective _ h) ▸ rfl

theorem mkSignal_confidence {commits : List Commit} {ty : SigType}
    {kws : List Str} {s : ImpactSignal} (h : mkSignal commits ty kws = some s) :
    s.confidence =
      min 1 (((commits.filter (commitMatches kws)).length : ℚ) / 10 +
        (totalChanges (commits.filter (commitMatches kws)) : ℚ) / 1000) := by
  simp only [mkSignal] at h
  split at h
  · exact absurd h (by simp)
  · exact (Option.some_injective _ h) ▸ rfl

theorem mkSignal_isSome_iff {commits : List Commit} {ty : SigType}
    {kws : List Str} :
    (mkSignal commits ty kws).isSome ↔
      ∃ c ∈ commits, commitMatches kws c = true := by
  simp only [mkSignal]
  split
  · rename_i h
    simp only [Option.isSome_none, Bool.false_eq_true, false_iff]
    rw [List.isEmpty_iff, List.filter_eq_nil_iff] at h
    push_neg
    intro c hc
    simpa using h c hc
  · rename_i h
    simp only [Option.isSome_some, true_iff]
    rw [List.isEmpty_iff] at h
    obtain ⟨c, hc⟩ := List.exists_mem_of_ne_nil _ h
    exact ⟨c, (List.mem_filter.mp hc).1, (List.mem_filter.mp hc).2⟩

theorem keyword_groups_snd {g : SigType × List Str} (hg : g ∈ keyword_groups) :
    g.2 = bucketOf g.1 := by
  simp only [keyword_groups, List.mem_cons, List.not_mem_nil, or_false] at hg
  rcases hg with rfl | rfl | rfl | rfl <;> rfl

theorem bucket_mem_keyword_groups (ty : SigType) :
    (ty, bucketOf ty) ∈ keyword_groups := by
  cases ty <;> simp [keyword_groups, bucketOf]

theorem filterMap_tag_le (commits : List Commit) (ty : SigType)
    (gs : List (SigType × List Str)) :
    ((gs.filterMap (fun g => mkSignal commits g.1 g.2)).filter
      (fun s => s.type == ty)).length ≤
    (gs.filter (fun g => g.1 == ty)).length := by
  induction gs with
  | nil => simp
  | cons g gs ih =>
    rw [List.filterMap_cons]
    cases hm : mkSignal commits g.1 g.2 with
    | none =>
      refine le_trans ih ?_
      rw [List.filter_cons]
      split
      · simp [Nat.le_succ]
      · exact le_refl _
    | some s =>
      have hty := mkSignal_type hm
      rw [List.filter_cons, List.filter_cons]
      by_cases h : g.1 = ty
      · simp only [hty, h, beq_self_eq_true, if_true, List.length_cons]
        omega
      · have h1 : (s.type == ty) = false := by
          simp [hty, h]
        have h2 : (g.1 == ty) = false := by simp [h]
        simp only [h1, h2, Bool.false_eq_true, if_false]
        exact ih

theorem keyword_groups_filter_len (ty : SigType) :
    (keyword_groups.filter (fun g => g.1 == ty)).length = 1 := by
  cases ty <;> rfl

theorem headI_mem {α : Type} [Inhabited α] {l : List α} (h : l ≠ []) :
    l.headI ∈ l := by
  cases l with
  | nil => exact absurd rfl h
  | cons a t => exact List.mem_cons_self a t

theorem mem_insByComplexity {a p : CommitPattern} {l : List CommitPattern} :
    a ∈ insByComplexity p l ↔ a = p ∨ a ∈ l := by
  induction l with
  | nil => simp [insByComplexity]
  | cons y ys ih =>
    rw [insByComplexity]
    split
    · rw [List.mem_cons, ih, List.mem_cons]
      tauto
    · rw [List.mem_cons, List.mem_cons]

theorem mem_sortByComplexityDesc {a : CommitPattern} {l : List CommitPattern} :
    a ∈ sortByComplexityDesc l ↔ a ∈ l := by
  have key : ∀ (l acc : List CommitPattern),
      (a ∈ l.foldl (fun acc p => insByComplexity p acc) acc ↔ a ∈ acc ∨ a ∈ l) := by
    intro l
    induction l with
    | nil => simp
    | cons p ps ih =>
      intro acc
      rw [List.foldl_cons, ih, mem_insByComplexity, List.mem_cons]
      tauto
  rw [sortByComplexityDesc, key]
  simp

theorem pyMin_eq_min (a b : ℚ) : pyMin a b = min a b := by
  by_cases h : a ≤ b <;> simp [pyMin, min_def, h]

/-- Number of commits in the list whose file list contains `f`. -/
def touchCount (f : Str) (commits : List Commit) : Nat :=
  (commits.filter (fun c => c.files.contains f)).length

theorem lookup_upsert_self (m : List (Str × Nat)) (f : Str) :
    (upsert m f).lookup f = some ((m.lookup f).getD 0 + 1) := by
  induction m with
  | nil => simp [upsert, List.lookup]
  | cons p t ih =>
    obtain ⟨k, n⟩ := p
    by_cases h : k = f
    · subst h
      simp [upsert, List.lookup_cons]
    · have hb : (k == f) = false := beq_eq_false_iff_ne.mpr h
      have hb2 : (f == k) = false := beq_eq_false_iff_ne.mpr (Ne.symm h)
      simp [upsert, List.lookup_cons, hb, hb2, ih]

theorem lookup_upsert_ne (m : List (Str × Nat)) (f g : Str) (h : g ≠ f) :
    (upsert m f).lookup g = m.lookup g := by
  induction m with
  | nil => simp [upsert, List.lookup_cons, beq_eq_false_iff_ne.mpr h]
  | cons p t ih =>
    obtain ⟨k, n⟩ := p
    by_cases hk : k = f
    · subst hk
      have hb2 : (g == k) = false := beq_eq_false_iff_ne.mpr h
      simp [upsert, List.lookup_cons, hb2]
    · have hb : (k == f) = false := beq_eq_false_iff_ne.mpr hk
      simp [upsert, List.lookup_cons, hb, ih]

theorem lookup_foldl_upsert (fs : List Str) (hnd : fs.Nodup)
    (m : List (Str × Nat)) (f : Str) :
    (fs.foldl upsert m).lookup f =
      if f ∈ fs then some ((m.lookup f).getD 0 + 1) else m.lookup f := by
  induction fs generalizing m with
  | nil => simp
  | cons g gs ih =>
    rw [List.foldl_cons]
    obtain ⟨hg, hgs⟩ := List.nodup_cons.mp hnd
    by_cases hf : f = g
    · subst hf
      rw [ih hgs, if_neg hg, lookup_upsert_self, if_pos (List.mem_cons_self _ _)]
    · rw [ih hgs, lookup_upsert_ne m g f hf]
      by_cases hmem : f ∈ gs
      · rw [if_pos hmem, if_pos (List.mem_cons_of_mem _ hmem)]
      · rw [if_neg hmem, if_neg (by simp [List.mem_cons, hf, hmem])]

theorem touchCount_cons (f : Str) (c : Commit) (cs : List Commit) :
    touchCount f (c :: cs) =
      (if c.files.contains f then 1 else 0) + touchCount f cs := by
  rw [touchCount, touchCount, List.filter_cons]
  split <;> simp [Nat.add_comm]

theorem lookup_counts_aux (f : Str) (cs : List Commit)
    (hnd : ∀ c ∈ cs, c.files.Nodup) (m : List (Str × Nat)) :
    (cs.foldl (fun m c => c.files.foldl upsert m) m).lookup f =
      if 0 < touchCount f cs
      then some ((m.lookup f).getD 0 + touchCount f cs)
      else m.lookup f := by
  induction cs generalizing m with
  | nil => simp [touchCount]
  | cons c cs ih =>
    rw [List.foldl_cons]
    have hndc : c.files.Nodup := hnd c (List.mem_cons_self _ _)
    have hndcs : ∀ x ∈ cs, x.files.Nodup := fun x hx => hnd x (List.mem_cons_of_mem _ hx)
    rw [ih hndcs, touchCount_cons]
    by_cases hc : c.files.contains f
    · have hmem : f ∈ c.files := by
        rw [List.contains, List.elem_eq_mem, decide_eq_true_iff] at hc
        exact hc
      rw [lookup_foldl_upsert c.files hndc m f, if_pos hmem, if_pos hc]
      by_cases ht : 0 < touchCount f cs
      · rw [if_pos ht, if_pos (by omega)]
        simp
        omega
      · rw [if_neg ht, if_pos (by omega)]
        have : touchCount f cs = 0 := by omega
        rw [this]
    · have hmem : f ∉ c.files := by
        rw [List.contains, List.elem_eq_mem] at hc
        simpa using hc
      rw [lookup_foldl_upsert c.files hndc m f, if_neg hmem, if_neg hc]
      simp

theorem lookup_file_commit_counts (commits : List Commit)
    (hnd : ∀ c ∈ commits, c.files.Nodup) (f : Str) :
    (file_commit_counts commits).lookup f =
      if 0 < touchCount f commits then some (touchCount f commits) else none := by
  rw [file_commit_counts, lookup_counts_aux f commits hnd []]
  simp

theorem lookup_map_ratio (m : List (Str × Nat)) (f : Str) :
    ((m.map (fun p => (p.1, pyMin 1 ((p.2 : ℚ) / 10)))).lookup f) =
      (m.lookup f).map (fun n => pyMin 1 ((n : ℚ) / 10)) := by
  induction m with
  | nil => simp
  | cons p t ih =>
    obtain ⟨k, n⟩ := p
    rw [List.map_cons]
    cases hf : f == k <;> simp [List.lookup_cons, hf, ih]

theorem assess_has_metrics_eq (t b d : Str) :
    (assess_section_quality t b d).has_metrics =
      has_metrics_check (lowerStr (t ++ str " " ++ b ++ str " " ++ d)) := rfl

theorem assess_htt_eq (t b d : Str) :
    (assess_section_quality t b d).has_technical_terms =
      decide ((technical_keywords.filter (fun k =>
        containsSub (lowerStr (t ++ str " " ++ b ++ str " " ++ d)) k)).length ≥ 2) := rfl

theorem assess_len_eq (t b d : Str) :
    (assess_section_quality t b d).appropriate_length =
      (decide (20 ≤ (splitWS d).length) && decide ((splitWS d).length ≤ 80)) := rfl

theorem assess_av_eq (t b d : Str) :
    (assess_section_quality t b d).active_voice =
      decide ((passive_indicators.filter (fun w =>
        containsSub (lowerStr (t ++ str " " ++ b ++ str " " ++ d)) w)).length ≤ 1) := rfl

theorem assess_suggestions_eq (t b d : Str) :
    (assess_section_quality t b d).suggestions =
      (if !(assess_section_quality t b d).has_metrics then
        [str "Add specific metrics (percentages, time improvements, scale)"]
       else []) ++
      (if !(assess_section_quality t b d).has_technical_terms then
        [str "Include more technical terminology and technologies"]
       else []) ++
      (if !(assess_section_quality t b d).appropriate_length then
        (if (splitWS d).length < 20 then
          [str "Expand description with more technical details"]
         else [str "Condense description to focus on key achievements"])
       else []) ++
      (if !(assess_section_quality t b d).active_voice then
        [str "Use more active voice constructions"]
       else []) := rfl

theorem assess_score_formula (t b d : Str) :
    (assess_section_quality t b d).score =
      (if (assess_section_quality t b d).has_metrics then (3 : ℚ)/10 else 0) +
      (if (assess_section_quality t b d).has_technical_terms then (3 : ℚ)/10 else 0) +
      (if (assess_section_quality t b d).appropriate_length then (1 : ℚ)/5 else 0) +
      (if (assess_section_quality t b d).active_voice then (1 : ℚ)/5 else 0) := by
  simp only [assess_section_quality]
  split_ifs <;> norm_num

theorem assess_score_mem (t b d : Str) :
    (assess_section_quality t b d).score ∈
      ([0, 1/5, 3/10, 2/5, 1/2, 3/5, 7/10, 4/5, 1] : List ℚ) := by
  simp only [assess_section_quality, List.mem_cons, List.not_mem_nil]
  split_ifs <;> norm_num

theorem assess_score_high (t b d : Str)
    (h : (4 : ℚ)/5 < (assess_section_quality t b d).score) :
    (assess_section_quality t b d).score = 1 := by
  revert h
  simp only [assess_section_quality]
  split_ifs <;> norm_num

theorem sectionLoop_scores_assess (i : Nat) (secs : List PySection) (q : ℚ)
    (hq : q ∈ (sectionLoop i secs).2.2) :
    ∃ t b d, q = (assess_section_quality t b d).score := by
  induction secs generalizing i with
  | nil => simp [sectionLoop] at hq
  | cons s rest ih =>
    simp only [sectionLoop] at hq
    split at hq
    · exact ih (i + 1) hq
    · split at hq <;> rw [List.mem_cons] at hq <;>
        rcases hq with rfl | hq
      · exact ⟨_, _, _, rfl⟩
      · exact ih (i + 1) hq
      · exact ⟨_, _, _, rfl⟩
      · exact ih (i + 1) hq

theorem two_le_length_of_two_mem {α : Type} {l : List α} {a b : α}
    (ha : a ∈ l) (hb : b ∈ l) (hne : a ≠ b) : 2 ≤ l.length := by
  cases l with
  | nil => simp at ha
  | cons x t =>
    cases t with
    | nil =>
      rw [List.mem_singleton] at ha hb
      exact absurd (ha.trans hb.symm) hne
    | cons y u => simp [List.length_cons]

theorem containsSub_infix {hay nd : Str} (h : containsSub hay nd = true) :
    ∃ a b, hay = a ++ (nd ++ b) := by
  induction hay with
  | nil =>
    rw [containsSub] at h
    simp only [Bool.or_false] at h
    rw [List.isPrefixOf_iff_prefix] at h
    rw [List.prefix_nil] at h
    exact ⟨[], [], by simp [h]⟩
  | cons c t ih =>
    rw [containsSub, Bool.or_eq_true] at h
    rcases h with h | h
    · rw [List.isPrefixOf_iff_prefix] at h
      obtain ⟨s, hs⟩ := h
      exact ⟨[], s, hs.symm⟩
    · obtain ⟨a, b, rfl⟩ := ih h
      exact ⟨c :: a, b, rfl⟩

theorem anyTail_append_right (p : Str → Bool) (a s : Str)
    (h : anyTail p s = true) : anyTail p (a ++ s) = true := by
  induction a with
  | nil => simpa using h
  | cons c cs ih =>
    rw [List.cons_append, anyTail, Bool.or_eq_true]
    exact Or.inr ih

theorem anyTail_of_head (p : Str → Bool) (s : Str) (h : p s = true) :
    anyTail p s = true := by
  cases s with
  | nil => exact h
  | cons c cs =>
    rw [anyTail, Bool.or_eq_true]
    exact Or.inl h

theorem metricsAt_45 (b : Str) : metricsAt ('4' :: '5' :: '%' :: b) = true := by
  have hd4 : isDigitChar '4' = true := by decide
  have hd5 : isDigitChar '5' = true := by decide
  have hdp : isDigitChar '%' = false := by decide
  have ht : List.takeWhile isDigitChar ('4' :: '5' :: '%' :: b) = ['4', '5'] := by
    simp [List.takeWhile_cons, hd4, hd5, hdp]
  have hd : List.dropWhile isDigitChar ('4' :: '5' :: '%' :: b) = '%' :: b := by
    simp [List.dropWhile_cons, hd4, hd5, hdp]
  rw [metricsAt]
  simp only [Bool.or_eq_true]
  iterate 8 apply Or.inl
  rw [digitsThen, ht, hd]
  simp

theorem has_metrics_of_45 {ft : Str} (h : containsSub ft (str "45%") = true) :
    has_metrics_check ft = true := by
  obtain ⟨a, b, rfl⟩ := containsSub_infix h
  exact anyTail_append_right _ a _
    (anyTail_of_head _ _ (metricsAt_45 b))

theorem tech_of_redis_postgresql {ft : Str}
    (h1 : containsSub ft (str "redis") = true)
    (h2 : containsSub ft (str "postgresql") = true) :
    decide ((technical_keywords.filter (fun k => containsSub ft k)).length ≥ 2) = true := by
  rw [decide_eq_true_iff]
  refine two_le_length_of_two_mem (a := str "redis") (b := str "postgresql")
    ?_ ?_ (by decide)
  · exact List.mem_filter.mpr ⟨by decide, h1⟩
  · exact List.mem_filter.mpr ⟨by decide, h2⟩

theorem fixBody_shape (body : List Str) : ∃ bp d : Str,
    fixBody body = [str "**Bullet Point:** " ++ bp ++ str " <br />",
                    str "**Description:** " ++ d] := by
  simp only [fixBody]
  split
  · exact ⟨_, _, rfl⟩
  · split
    · exact ⟨str "Summary unavailable.", str "Details unavailable.", by decide⟩
    · exact ⟨_, _, rfl⟩

theorem isListItem_star (r : Str) : isListItem ('*' :: r) = false := rfl

theorem isListItem_hash (r : Str) : isListItem ('#' :: r) = false := rfl

theorem rstrip_isPrefix (l : Str) : rstrip l <+: l := by
  obtain ⟨t, ht⟩ := List.dropWhile_suffix (l := l.reverse) (p := isWS)
  refine ⟨t.reverse, ?_⟩
  rw [rstrip, ← List.reverse_append, ht, List.reverse_reverse]

theorem sectionStart_strip_no_list {l : Str} (h : isSectionStart l = true) :
    isListItem (strip l) = false := by
  rw [isSectionStart, List.isPrefixOf_iff_prefix] at h
  obtain ⟨t, ht⟩ := h
  rw [strip]
  cases hr : rstrip l with
  | nil => rfl
  | cons c r =>
    have hpre : (c :: r) <+: l := hr ▸ rstrip_isPrefix l
    obtain ⟨u, hu⟩ := hpre
    have hl3 : str "## " ++ t = '#' :: '#' :: ' ' :: t := rfl
    have heq : c :: (r ++ u) = '#' :: '#' :: ' ' :: t := by
      rw [← List.cons_append, hu, ← ht, hl3]
    have hc : c = '#' := (List.cons.injEq _ _ _ _).mp heq |>.1
    subst hc
    exact isListItem_hash r

theorem mem_fixBody_no_list {body : List Str} {l : Str}
    (hl : l ∈ fixBody body) : isListItem l = false := by
  obtain ⟨bp, d, heq⟩ := fixBody_shape body
  rw [heq] at hl
  simp only [List.mem_cons, List.not_mem_nil, or_false] at hl
  rcases hl with rfl | rfl
  · exact isListItem_star _
  · exact isListItem_star _

theorem autofixMach_no_list (ls : List Str) :
    ∀ (st : Option (List Str)) (l : Str), l ∈ autofixMach st ls →
      isListItem l = false := by
  induction ls with
  | nil =>
    intro st l hl
    cases st with
    | none => simp [autofixMach] at hl
    | some body => exact mem_fixBody_no_list hl
  | cons x xs ih =>
    intro st l hl
    cases st with
    | none =>
      rw [autofixMach] at hl
      by_cases h1 : isListItem x = true
      · rw [if_pos h1] at hl
        exact ih none l hl
      · rw [if_neg h1] at hl
        rw [Bool.not_eq_true] at h1
        by_cases h2 : isBlank x = true
        · rw [if_pos h2] at hl
          rcases List.mem_cons.mp hl with rfl | hl
          · exact h1
          · exact ih none l hl
        · rw [if_neg h2] at hl
          by_cases h3 : isSectionStart x = true
          · rw [if_pos h3] at hl
            rcases List.mem_cons.mp hl with rfl | hl
            · exact sectionStart_strip_no_list h3
            · exact ih (some []) l hl
          · rw [if_neg h3] at hl
            rcases List.mem_cons.mp hl with rfl | hl
            · exact h1
            · exact ih none l hl
    | some body =>
      rw [autofixMach] at hl
      by_cases h3 : isSectionStart x = true
      · rw [if_pos h3] at hl
        rcases List.mem_append.mp hl with hl | hl
        · exact mem_fixBody_no_list hl
        · rcases List.mem_cons.mp hl with rfl | hl
          · exact sectionStart_strip_no_list h3
          · exact ih (some []) l hl
      · rw [if_neg h3] at hl
        by_cases h1 : isListItem x = true
        · rw [if_pos h1] at hl
          exact ih (some body) l hl
        · rw [if_neg h1] at hl
          exact ih (some (x :: body)) l hl

theorem autofixLines_no_list (lines : List Str) :
    ∀ l ∈ autofixLines lines, isListItem l = false := by
  intro l hl
  cases lines with
  | nil => simp [autofixLines] at hl
  | cons x xs =>
    rw [autofixLines] at hl
    by_cases h : (str "# ").isPrefixOf x = true
    · rw [if_pos h] at hl
      rcases List.mem_cons.mp hl with rfl | hl
      · rw [List.isPrefixOf_iff_prefix] at h
        obtain ⟨t, ht⟩ := h
        rw [← ht]
        exact isListItem_hash _
      · exact autofixMach_no_list xs none l hl
    · rw [if_neg h] at hl
      exact autofixMach_no_list (x :: xs) none l hl

theorem scanSubF_false_no_nl (m : Str → Option (Bool × Str)) (repl : Str)
    (fuel : Nat) (l : Str) (hnl : '\n' ∉ l) :
    scanSubF m repl fuel false l = l := by
  induction fuel generalizing l with
  | zero => rfl
  | succ fuel ih =>
    cases l with
    | nil => rfl
    | cons c cs =>
      have hc : (c == '\n') = false :=
        beq_eq_false_iff_ne.mpr (fun hcc => hnl (hcc ▸ List.mem_cons_self _ _))
      rw [scanSubF, hc]
      rw [if_neg (by simp)]
      rw [ih cs (fun hm => hnl (List.mem_cons_of_mem _ hm))]

theorem scanSub_head_match {m : Str → Option (Bool × Str)} {repl s v : Str}
    (hm : m s = some (false, v)) (hnl : '\n' ∉ v) (hne : s ≠ []) :
    scanSub m repl s = repl ++ v := by
  cases s with
  | nil => exact absurd rfl hne
  | cons c cs =>
    rw [scanSub, List.length_cons, scanSubF, if_pos rfl, hm]
    show repl ++ scanSubF m repl cs.length false v = repl ++ v
    rw [scanSubF_false_no_nl m repl cs.length v hnl]

theorem scanSub_none_no_nl {m : Str → Option (Bool × Str)} {repl s : Str}
    (hm : m s = none) (hnl : '\n' ∉ s) : scanSub m repl s = s := by
  cases s with
  | nil => rfl
  | cons c cs =>
    have hc : (c == '\n') = false :=
      beq_eq_false_iff_ne.mpr (fun hcc => hnl (hcc ▸ List.mem_cons_self _ _))
    rw [scanSub, List.length_cons, scanSubF, if_pos rfl, hm]
    show c :: scanSubF m repl cs.length (c == '\n') cs = c :: cs
    rw [hc]
    rw [scanSubF_false_no_nl m repl cs.length cs
      (fun hmem => hnl (List.mem_cons_of_mem _ hmem))]

theorem searchLS_false_no_nl (m : Str → Option (Bool × Str)) (l : Str)
    (hnl : '\n' ∉ l) : searchLS m false l = false := by
  induction l with
  | nil => rfl
  | cons c cs ih =>
    have hc : (c == '\n') = false :=
      beq_eq_false_iff_ne.mpr (fun hcc => hnl (hcc ▸ List.mem_cons_self _ _))
    rw [searchLS, hc]
    simp only [Bool.false_and, Bool.false_or]
    exact ih (fun hm => hnl (List.mem_cons_of_mem _ hm))

theorem searchLS_cons_head {m : Str → Option (Bool × Str)} {c : Char} {cs : Str}
    (h : (m (c :: cs)).isSome = true) : searchLS m true (c :: cs) = true := by
  rw [searchLS, h]
  simp

theorem searchLS_cons_false {m : Str → Option (Bool × Str)} {c : Char} {cs : Str}
    (h : (m (c :: cs)).isSome = false) (hc : c ≠ '\n') (hnl : '\n' ∉ cs) :
    searchLS m true (c :: cs) = false := by
  rw [searchLS, h, beq_eq_false_iff_ne.mpr hc]
  simp only [Bool.true_and, Bool.false_or]
  exact searchLS_false_no_nl m cs hnl

theorem dropLit_append (p r : Str) : dropLit p (p ++ r) = some r := by
  induction p with
  | nil => rfl
  | cons c cs ih =>
    rw [List.cons_append, dropLit]
    simp [ih]

theorem takeWhile_nil_of_dropWhile_self {p : Char → Bool} {l : Str}
    (h : l.dropWhile p = l) : l.takeWhile p = [] := by
  cases l with
  | nil => rfl
  | cons c cs =>
    by_cases hc : p c
    · exfalso
      rw [List.dropWhile_cons_of_pos hc] at h
      have hle := (List.dropWhile_suffix (l := cs) (p := p)).length_le
      rw [h] at hle
      simp at hle
    · simp [hc]

theorem takeWhile_non_nl_self {v : Str} (hnl : '\n' ∉ v) :
    v.takeWhile (fun c => !(c == '\n')) = v :=
  List.takeWhile_eq_self_iff.mpr (fun a ha => by
    simp only [Bool.not_eq_true']
    exact beq_eq_false_iff_ne.mpr (fun he => hnl (he ▸ ha)))

theorem dropWhile_non_nl_nil {v : Str} (hnl : '\n' ∉ v) :
    v.dropWhile (fun c => !(c == '\n')) = [] :=
  List.dropWhile_eq_nil_iff.mpr (fun a ha => by
    simp only [Bool.not_eq_true']
    exact beq_eq_false_iff_ne.mpr (fun he => hnl (he ▸ ha)))

theorem joinNL_single (s : Str) : joinNL [s] = s := by
  simp [joinNL, List.intercalate]

theorem labelValueMatch_self (label v : Str) (hls : lstrip v = v)
    (hnl : '\n' ∉ v) :
    labelValueMatch label ((str "**" ++ label ++ str ":**") ++ (' ' :: v)) =
      some (false, v, []) := by
  have hws : isWS ' ' = true := by decide
  have hw : (' ' :: v).takeWhile isWS = [' '] := by
    rw [List.takeWhile_cons_of_pos hws, takeWhile_nil_of_dropWhile_self hls]
  have hr2 : (' ' :: v).dropWhile isWS = v := by
    rw [List.dropWhile_cons_of_pos hws]
    exact hls
  rw [labelValueMatch, dropLit_append, Option.map_some']
  simp only [hw, hr2, takeWhile_non_nl_self hnl, dropWhile_non_nl_nil hnl]
  simp

theorem findLabelsF_nil (fuel : Nat) (b : Bool) : findLabelsF fuel b [] = [] := by
  cases fuel <;> rfl

theorem findLabels_bullet (v : Str) (hls : lstrip v = v) (hnl : '\n' ∉ v) :
    findLabels (str "**Bullet Point:** " ++ v) = [(true, v)] := by
  have hsplit : str "**Bullet Point:** " ++ v =
      (str "**" ++ str "Bullet Point" ++ str ":**") ++ (' ' :: v) := rfl
  have hlvm := labelValueMatch_self (str "Bullet Point") v hls hnl
  have hany : anyLabelMatch (str "**Bullet Point:** " ++ v) =
      some (true, false, v, []) := by
    rw [anyLabelMatch, hsplit, hlvm]
  rw [findLabels]
  have hcons : str "**Bullet Point:** " ++ v = '*' :: (str "*Bullet Point:** " ++ v) := rfl
  rw [hcons, List.length_cons, findLabelsF, if_pos rfl, ← hcons, hany]
  exact congrArg (List.cons (true, v)) (findLabelsF_nil _ false)

theorem findLabels_description (v : Str) (hls : lstrip v = v) (hnl : '\n' ∉ v) :
    findLabels (str "**Description:** " ++ v) = [(false, v)] := by
  have hsplit : str "**Description:** " ++ v =
      (str "**" ++ str "Description" ++ str ":**") ++ (' ' :: v) := rfl
  have hlvm := labelValueMatch_self (str "Description") v hls hnl
  have hbpfail : labelValueMatch (str "Bullet Point")
      (str "**Description:** " ++ v) = none := rfl
  have hany : anyLabelMatch (str "**Description:** " ++ v) =
      some (false, false, v, []) := by
    rw [anyLabelMatch, hbpfail, hsplit, hlvm]
  rw [findLabels]
  have hcons : str "**Description:** " ++ v = '*' :: (str "*Description:** " ++ v) := rfl
  rw [hcons, List.length_cons, findLabelsF, if_pos rfl, ← hcons, hany]
  exact congrArg (List.cons (false, v)) (findLabelsF_nil _ false)

/-! ## Fixed-point lemmas for the canonical section shape (claim C1) -/

theorem dropWhile_head_false {p : Char → Bool} {y : Char} {t : Str}
    (h : List.dropWhile p (y :: t) = y :: t) : p y = false := by
  cases hp : p y with
  | false => rfl
  | true =>
    exfalso
    have htw := takeWhile_nil_of_dropWhile_self h
    rw [List.takeWhile_cons_of_pos hp] at htw
    exact List.cons_ne_nil _ _ htw

theorem nl_not_mem {l : Str} (h : ∀ c ∈ l, isLineBoundary c = false) :
    '\n' ∉ l := fun hmem => absurd (h '\n' hmem) (by decide)

theorem lstrip_append_self {a : Str} (b : Str) (ha : lstrip a = a)
    (hane : a ≠ []) : lstrip (a ++ b) = a ++ b := by
  obtain ⟨x, a', rfl⟩ := List.exists_cons_of_ne_nil hane
  have ha' : List.dropWhile isWS (x :: a') = x :: a' := ha
  have hx : isWS x = false := dropWhile_head_false ha'
  rw [List.cons_append, lstrip, List.dropWhile_cons_of_neg (by simp [hx])]

theorem reverse_dropWhile_of_rstrip {b : Str} (hb : rstrip b = b) :
    List.dropWhile isWS b.reverse = b.reverse := by
  have h1 : ((List.dropWhile isWS b.reverse).reverse).reverse = b.reverse :=
    congrArg List.reverse hb
  rwa [List.reverse_reverse] at h1

theorem rstrip_append_self (a : Str) {b : Str} (hb : rstrip b = b)
    (hbne : b ≠ []) : rstrip (a ++ b) = a ++ b := by
  have hrev : b.reverse ≠ [] := fun h => hbne (by simpa using congrArg List.reverse h)
  obtain ⟨y, t, hyt⟩ := List.exists_cons_of_ne_nil hrev
  have hb' := reverse_dropWhile_of_rstrip hb
  rw [hyt] at hb'
  have hy : isWS y = false := dropWhile_head_false hb'
  show ((a ++ b).reverse.dropWhile isWS).reverse = a ++ b
  rw [List.reverse_append, hyt, List.cons_append,
    List.dropWhile_cons_of_neg (by simp [hy]), ← List.cons_append, ← hyt,
    ← List.reverse_append, List.reverse_reverse]

theorem scanSubF_true_none {m : Str → Option (Bool × Str)} {repl : Str}
    {b : Str} (hb : m b = none) (hnlb : '\n' ∉ b) (fuel : Nat) :
    scanSubF m repl fuel true b = b := by
  cases fuel with
  | zero => rfl
  | succ f =>
    cases b with
    | nil => rfl
    | cons c cs =>
      rw [scanSubF, if_pos rfl, hb]
      have hc : (c == '\n') = false :=
        beq_eq_false_iff_ne.mpr (fun hcc => hnlb (hcc ▸ List.mem_cons_self _ _))
      show c :: scanSubF m repl f (c == '\n') cs = c :: cs
      rw [hc, scanSubF_false_no_nl m repl f cs
        (fun hmem => hnlb (List.mem_cons_of_mem _ hmem))]

theorem scanSubF_twoline_false {m : Str → Option (Bool × Str)} {repl : Str}
    {b : Str} (hb : m b = none) (hnlb : '\n' ∉ b) :
    ∀ (a : Str) (fuel : Nat), '\n' ∉ a →
      scanSubF m repl fuel false (a ++ '\n' :: b) = a ++ '\n' :: b := by
  intro a
  induction a with
  | nil =>
    intro fuel _
    cases fuel with
    | zero => rfl
    | succ f =>
      show scanSubF m repl (f + 1) false ('\n' :: b) = '\n' :: b
      rw [scanSubF, if_neg (by simp)]
      show '\n' :: scanSubF m repl f (('\n' : Char) == '\n') b = '\n' :: b
      rw [show (('\n' : Char) == '\n') = true from rfl,
        scanSubF_true_none hb hnlb f]
  | cons x a' ih =>
    intro fuel hna
    cases fuel with
    | zero => rfl
    | succ f =>
      have hx : (x == '\n') = false :=
        beq_eq_false_iff_ne.mpr (fun hcc => hna (hcc ▸ List.mem_cons_self _ _))
      rw [List.cons_append, scanSubF, if_neg (by simp)]
      show x :: scanSubF m repl f (x == '\n') (a' ++ '\n' :: b) =
        x :: (a' ++ '\n' :: b)
      rw [hx, ih f (fun hmem => hna (List.mem_cons_of_mem _ hmem))]

theorem scanSub_twoline_none {m : Str → Option (Bool × Str)} {repl : Str}
    {a b : Str} (hm : m (a ++ '\n' :: b) = none) (hb : m b = none)
    (hna : '\n' ∉ a) (hnlb : '\n' ∉ b) (hane : a ≠ []) :
    scanSub m repl (a ++ '\n' :: b) = a ++ '\n' :: b := by
  obtain ⟨x, a', rfl⟩ := List.exists_cons_of_ne_nil hane
  have hx : (x == '\n') = false :=
    beq_eq_false_iff_ne.mpr (fun hcc => hna (hcc ▸ List.mem_cons_self _ _))
  rw [List.cons_append] at hm ⊢
  rw [scanSub, List.length_cons, scanSubF, if_pos rfl, hm]
  show x :: scanSubF m repl (a' ++ '\n' :: b).length (x == '\n')
      (a' ++ '\n' :: b) = x :: (a' ++ '\n' :: b)
  rw [hx, scanSubF_twoline_false hb hnlb a' _
    (fun hmem => hna (List.mem_cons_of_mem _ hmem))]

theorem takeWhile_non_nl_append (u w : Str) (h : '\n' ∉ u) :
    (u ++ '\n' :: w).takeWhile (fun c => !(c == '\n')) = u := by
  induction u with
  | nil =>
    show List.takeWhile _ ('\n' :: w) = []
    rw [List.takeWhile_cons_of_neg (by simp)]
  | cons x u' ih =>
    have hx : (x == '\n') = false :=
      beq_eq_false_iff_ne.mpr (fun hcc => h (hcc ▸ List.mem_cons_self _ _))
    rw [List.cons_append, List.takeWhile_cons_of_pos (by simp [hx]),
      ih (fun hm => h (List.mem_cons_of_mem _ hm))]

theorem dropWhile_non_nl_append (u w : Str) (h : '\n' ∉ u) :
    (u ++ '\n' :: w).dropWhile (fun c => !(c == '\n')) = '\n' :: w := by
  induction u with
  | nil =>
    show List.dropWhile _ ('\n' :: w) = '\n' :: w
    rw [List.dropWhile_cons_of_neg (by simp)]
  | cons x u' ih =>
    have hx : (x == '\n') = false :=
      beq_eq_false_iff_ne.mpr (fun hcc => h (hcc ▸ List.mem_cons_self _ _))
    rw [List.cons_append, List.dropWhile_cons_of_pos (by simp [hx]),
      ih (fun hm => h (List.mem_cons_of_mem _ hm))]

theorem labelValueMatch_line (label u w : Str) (hls : lstrip u = u)
    (hnl : '\n' ∉ u) (hune : u ≠ []) :
    labelValueMatch label
        ((str "**" ++ label ++ str ":**") ++ (' ' :: (u ++ '\n' :: w))) =
      some (false, u, '\n' :: w) := by
  obtain ⟨x, u', rfl⟩ := List.exists_cons_of_ne_nil hune
  have hls' : List.dropWhile isWS (x :: u') = x :: u' := hls
  have hx : isWS x = false := dropWhile_head_false hls'
  have hws : isWS ' ' = true := by decide
  have hr2 : (' ' :: ((x :: u') ++ '\n' :: w)).dropWhile isWS =
      (x :: u') ++ '\n' :: w := by
    rw [List.dropWhile_cons_of_pos hws, List.cons_append,
      List.dropWhile_cons_of_neg (by simp [hx]), ← List.cons_append]
  have hw : (' ' :: ((x :: u') ++ '\n' :: w)).takeWhile isWS = [' '] := by
    rw [List.takeWhile_cons_of_pos hws, List.cons_append,
      List.takeWhile_cons_of_neg (by simp [hx])]
  rw [labelValueMatch, dropLit_append, Option.map_some']
  simp only [hw, hr2, takeWhile_non_nl_append (x :: u') w hnl,
    dropWhile_non_nl_append (x :: u') w hnl]
  simp

theorem findLabels_bp_desc (u d : Str) (hls : lstrip u = u) (hnl : '\n' ∉ u)
    (hune : u ≠ []) (hdls : lstrip d = d) (hdnl : '\n' ∉ d) :
    findLabels ((str "**Bullet Point:** " ++ u) ++
        '\n' :: (str "**Description:** " ++ d)) =
      [(true, u), (false, d)] := by
  have hsplit : (str "**Bullet Point:** " ++ u) ++
      '\n' :: (str "**Description:** " ++ d) =
      (str "**" ++ str "Bullet Point" ++ str ":**") ++
        (' ' :: (u ++ '\n' :: (str "**Description:** " ++ d))) := rfl
  have hlvm := labelValueMatch_line (str "Bullet Point") u
    (str "**Description:** " ++ d) hls hnl hune
  have hany : anyLabelMatch ((str "**Bullet Point:** " ++ u) ++
      '\n' :: (str "**Description:** " ++ d)) =
      some (true, false, u, '\n' :: (str "**Description:** " ++ d)) := by
    rw [anyLabelMatch, hsplit, hlvm]
  have hlvm2 := labelValueMatch_self (str "Description") d hdls hdnl
  have hbpfail : labelValueMatch (str "Bullet Point")
      (str "**Description:** " ++ d) = none := rfl
  have hsplit2 : str "**Description:** " ++ d =
      (str "**" ++ str "Description" ++ str ":**") ++ (' ' :: d) := rfl
  have hany2 : anyLabelMatch (str "**Description:** " ++ d) =
      some (false, false, d, []) := by
    rw [anyLabelMatch, hbpfail, hsplit2, hlvm2]
  obtain ⟨n, hn⟩ : ∃ n : Nat, ((str "**Bullet Point:** " ++ u) ++
      '\n' :: (str "**Description:** " ++ d)).length = n + 3 := by
    refine ⟨u.length + d.length + 33, ?_⟩
    rw [List.length_append, List.length_append, List.length_cons,
      List.length_append]
    have h1 : (str "**Bullet Point:** ").length = 18 := rfl
    have h2 : (str "**Description:** ").length = 17 := rfl
    rw [h1, h2]
    omega
  have hcons1 : (str "**Bullet Point:** " ++ u) ++
      '\n' :: (str "**Description:** " ++ d) =
      '*' :: ((str "*Bullet Point:** " ++ u) ++
        '\n' :: (str "**Description:** " ++ d)) := rfl
  rw [findLabels, hn, hcons1, show n + 3 = (n + 2) + 1 from rfl, findLabelsF,
    if_pos rfl, ← hcons1, hany]
  show (true, u) :: findLabelsF (n + 2) false
      ('\n' :: (str "**Description:** " ++ d)) = [(true, u), (false, d)]
  rw [show n + 2 = (n + 1) + 1 from rfl, findLabelsF, if_neg (by simp),
    show (('\n' : Char) == '\n') = true from rfl]
  have hcons3 : str "**Description:** " ++ d =
      '*' :: (str "*Description:** " ++ d) := rfl
  rw [hcons3, findLabelsF, if_pos rfl, ← hcons3, hany2]
  show (true, u) :: (false, d) :: findLabelsF n false [] =
    [(true, u), (false, d)]
  rw [findLabelsF_nil]

theorem joinNL_pair (a b : Str) : joinNL [a, b] = a ++ '\n' :: b := by
  simp [joinNL, List.intercalate]

theorem joinNL_triple (a b c : Str) :
    joinNL [a, b, c] = a ++ '\n' :: (b ++ '\n' :: c) := by
  simp [joinNL, List.intercalate]

theorem splitlinesAux_append_nl (a b : Str)
    (h : ∀ c ∈ a, isLineBoundary c = false) :
    ∀ acc : Str, splitlinesAux false acc (a ++ '\n' :: b) =
      (acc.reverse ++ a) :: splitlinesAux false [] b := by
  induction a with
  | nil =>
    intro acc
    show splitlinesAux false acc ('\n' :: b) =
      (acc.reverse ++ []) :: splitlinesAux false [] b
    rw [splitlinesAux, if_neg (by decide), if_neg (by decide),
      if_pos (by decide), List.append_nil]
  | cons x a' ih =>
    intro acc
    have hx : isLineBoundary x = false := h x (List.mem_cons_self _ _)
    have hxr : x ≠ '\r' := fun he => absurd (he ▸ hx) (by decide)
    rw [List.cons_append, splitlinesAux, if_neg (by simp), if_neg hxr,
      if_neg (by simp [hx]),
      ih (fun c hc => h c (List.mem_cons_of_mem _ hc)) (x :: acc),
      List.reverse_cons, List.append_assoc, List.singleton_append]

theorem splitlinesAux_no_boundary (a : Str)
    (h : ∀ c ∈ a, isLineBoundary c = false) (hne : a ≠ []) :
    ∀ acc : Str, splitlinesAux false acc a = [acc.reverse ++ a] := by
  induction a with
  | nil => exact absurd rfl hne
  | cons x a' ih =>
    intro acc
    have hx : isLineBoundary x = false := h x (List.mem_cons_self _ _)
    have hxr : x ≠ '\r' := fun he => absurd (he ▸ hx) (by decide)
    rw [splitlinesAux, if_neg (by simp), if_neg hxr, if_neg (by simp [hx])]
    by_cases ha' : a' = []
    · subst ha'
      show splitlinesAux false (x :: acc) [] = [acc.reverse ++ [x]]
      rw [splitlinesAux, if_neg (by simp), List.reverse_cons]
    · rw [ih (fun c hc => h c (List.mem_cons_of_mem _ hc)) ha' (x :: acc),
        List.reverse_cons, List.append_assoc, List.singleton_append]

theorem splitlines_three (l1 l2 l3 : Str)
    (h1 : ∀ c ∈ l1, isLineBoundary c = false)
    (h2 : ∀ c ∈ l2, isLineBoundary c = false)
    (h3 : ∀ c ∈ l3, isLineBoundary c = false) (h3ne : l3 ≠ []) :
    splitlines (l1 ++ '\n' :: (l2 ++ '\n' :: l3)) = [l1, l2, l3] := by
  rw [splitlines, splitlinesAux_append_nl l1 _ h1 [],
    splitlinesAux_append_nl l2 _ h2 [],
    splitlinesAux_no_boundary l3 h3 h3ne []]
  simp

theorem autofixLines_not_h1 {l : Str} (ls : List Str)
    (h : (str "# ").isPrefixOf l = false) :
    autofixLines (l :: ls) = autofixMach none (l :: ls) := by
  rw [autofixLines, if_neg (by simp [h])]

theorem autofixMach_none_section {l : Str} (ls : List Str)
    (hLI : isListItem l = false) (hBl : isBlank l = false)
    (hSS : isSectionStart l = true) :
    autofixMach none (l :: ls) = strip l :: autofixMach (some []) ls := by
  rw [autofixMach, if_neg (by simp [hLI]), if_neg (by simp [hBl]), if_pos hSS]

theorem autofixMach_some_push {l : Str} (body ls : List Str)
    (hSS : isSectionStart l = false) (hLI : isListItem l = false) :
    autofixMach (some body) (l :: ls) = autofixMach (some (l :: body)) ls := by
  rw [autofixMach, if_neg (by simp [hSS]), if_neg (by simp [hLI])]

theorem autofixMach_some_nil_two (x y : Str) :
    autofixMach (some [x, y]) [] = fixBody [y, x] := rfl

theorem fixBody_labeled (body : List Str) (T u d : Str)
    (hn : normalizeBody body = T)
    (hs : searchLS (labelSearchMatch (str "Bullet Point")) true T = true)
    (hfl : findLabels T = [(true, u), (false, d)]) :
    fixBody body =
      [str "**Bullet Point:** " ++ stripBr (strip u) ++ str " <br />",
       str "**Description:** " ++ stripBr (strip d)] := by
  simp only [fixBody]
  rw [hn, hs]
  simp only [Bool.true_or, if_true]
  rw [hfl]
  have e1 : ((([((true : Bool), u), ((false : Bool), d)]).filter
      (fun p => p.1)).head?).map (fun p => stripBr (strip p.2)) =
      some (stripBr (strip u)) := rfl
  have e2 : ((([((true : Bool), u), ((false : Bool), d)]).filter
      (fun p => !p.1)).head?).map (fun p => stripBr (strip p.2)) =
      some (stripBr (strip d)) := rfl
  rw [e1, e2]

set_option maxHeartbeats 1000000 in
theorem fixBody_canonical (bp d : Str)
    (hbp_nl : '\n' ∉ bp) (hbp_ls : lstrip bp = bp)
    (hbp_ne : bp ≠ []) (hbp_br : stripBr (bp ++ str " <br />") = bp)
    (hd_nl : '\n' ∉ d) (hd_ls : lstrip d = d) (hd_rs : rstrip d = d)
    (hd_ne : d ≠ []) (hd_br : stripBr d = d) :
    fixBody [str "**Bullet Point:** " ++ bp ++ str " <br />",
             str "**Description:** " ++ d] =
      [str "**Bullet Point:** " ++ bp ++ str " <br />",
       str "**Description:** " ++ d] := by
  have hu_nl : '\n' ∉ bp ++ str " <br />" := by
    intro hmem
    rcases List.mem_append.mp hmem with h | h
    · exact hbp_nl h
    · exact absurd h (by decide)
  have hu_ls : lstrip (bp ++ str " <br />") = bp ++ str " <br />" :=
    lstrip_append_self _ hbp_ls hbp_ne
  have hu_rs : rstrip (bp ++ str " <br />") = bp ++ str " <br />" :=
    rstrip_append_self bp (by decide) (by decide)
  have hu_ne : bp ++ str " <br />" ≠ [] :=
    fun h => absurd (List.append_eq_nil.mp h).1 hbp_ne
  have hstrip_u : strip (bp ++ str " <br />") = bp ++ str " <br />" := by
    rw [strip, hu_rs, hu_ls]
  have hstrip_d : strip d = d := by rw [strip, hd_rs, hd_ls]
  have hd3_nl : '\n' ∉ str "**Description:** " ++ d := by
    intro hmem
    rcases List.mem_append.mp hmem with h | h
    · exact absurd h (by decide)
    · exact hd_nl h
  have hl2_nl : '\n' ∉ str "**Bullet Point:** " ++ (bp ++ str " <br />") := by
    intro hmem
    rcases List.mem_append.mp hmem with h | h
    · exact absurd h (by decide)
    · exact hu_nl h
  have hl2_ne : str "**Bullet Point:** " ++ (bp ++ str " <br />") ≠ [] :=
    fun h => absurd (List.append_eq_nil.mp h).1 (by decide)
  -- the joined, stripped body text in canonical two-line form
  have hstrip_T : strip ((str "**Bullet Point:** " ++ (bp ++ str " <br />")) ++
      '\n' :: (str "**Description:** " ++ d)) =
      (str "**Bullet Point:** " ++ (bp ++ str " <br />")) ++
        '\n' :: (str "**Description:** " ++ d) := by
    have hr : rstrip ((str "**Bullet Point:** " ++ (bp ++ str " <br />")) ++
        '\n' :: (str "**Description:** " ++ d)) =
        (str "**Bullet Point:** " ++ (bp ++ str " <br />")) ++
          '\n' :: (str "**Description:** " ++ d) := by
      have hshape : (str "**Bullet Point:** " ++ (bp ++ str " <br />")) ++
          '\n' :: (str "**Description:** " ++ d) =
          ((str "**Bullet Point:** " ++ (bp ++ str " <br />")) ++
            ('\n' :: str "**Description:** ")) ++ d := by
        rw [← List.cons_append, ← List.append_assoc]
      rw [hshape, rstrip_append_self _ hd_rs hd_ne, ← hshape]
    have hl : lstrip ((str "**Bullet Point:** " ++ (bp ++ str " <br />")) ++
        '\n' :: (str "**Description:** " ++ d)) =
        (str "**Bullet Point:** " ++ (bp ++ str " <br />")) ++
          '\n' :: (str "**Description:** " ++ d) := by
      have hshape : (str "**Bullet Point:** " ++ (bp ++ str " <br />")) ++
          '\n' :: (str "**Description:** " ++ d) =
          str "**Bullet Point:** " ++ ((bp ++ str " <br />") ++
            '\n' :: (str "**Description:** " ++ d)) := by
        rw [List.append_assoc]
      rw [hshape, lstrip_append_self _ (by decide) (by decide), ← hshape]
    rw [strip, hr, hl]
  have hscanB : scanSub bulletLabelMatch (str "**Bullet Point:** ")
      ((str "**Bullet Point:** " ++ (bp ++ str " <br />")) ++
        '\n' :: (str "**Description:** " ++ d)) =
      (str "**Bullet Point:** " ++ (bp ++ str " <br />")) ++
        '\n' :: (str "**Description:** " ++ d) :=
    scanSub_twoline_none rfl rfl hl2_nl hd3_nl hl2_ne
  have hscanD : scanSub descLabelMatch (str "**Description:** ")
      ((str "**Bullet Point:** " ++ (bp ++ str " <br />")) ++
        '\n' :: (str "**Description:** " ++ d)) =
      (str "**Bullet Point:** " ++ (bp ++ str " <br />")) ++
        '\n' :: (str "**Description:** " ++ d) :=
    scanSub_twoline_none rfl rfl hl2_nl hd3_nl hl2_ne
  have hnorm : normalizeBody [str "**Bullet Point:** " ++ bp ++ str " <br />",
      str "**Description:** " ++ d] =
      (str "**Bullet Point:** " ++ (bp ++ str " <br />")) ++
        '\n' :: (str "**Description:** " ++ d) := by
    rw [normalizeBody, joinNL_pair,
      List.append_assoc (str "**Bullet Point:** ") bp (str " <br />"),
      hstrip_T, hscanB, hscanD]
  have hsrch : searchLS (labelSearchMatch (str "Bullet Point")) true
      ((str "**Bullet Point:** " ++ (bp ++ str " <br />")) ++
        '\n' :: (str "**Description:** " ++ d)) = true := by
    show searchLS (labelSearchMatch (str "Bullet Point")) true
      ('*' :: ((str "*Bullet Point:** " ++ (bp ++ str " <br />")) ++
        '\n' :: (str "**Description:** " ++ d))) = true
    apply searchLS_cons_head
    have hpre : ((str "**" ++ str "Bullet Point" ++ str ":**")).isPrefixOf
        ('*' :: ((str "*Bullet Point:** " ++ (bp ++ str " <br />")) ++
          '\n' :: (str "**Description:** " ++ d))) = true := by
      rw [List.isPrefixOf_iff_prefix]
      exact ⟨' ' :: ((bp ++ str " <br />") ++
        '\n' :: (str "**Description:** " ++ d)), rfl⟩
    rw [labelSearchMatch, if_pos hpre]
    rfl
  have hfl := findLabels_bp_desc (bp ++ str " <br />") d hu_ls hu_nl hu_ne
    hd_ls hd_nl
  rw [fixBody_labeled _ _ _ _ hnorm hsrch hfl, hstrip_u, hbp_br,
    hstrip_d, hd_br]

/-! ## Concrete inputs used by claim witnesses and examples -/

/-- The single commit of the C3 example: message
"Fix null pointer exception in auth module". -/
def c3ExampleCommit : Commit :=
  { message := str "Fix null pointer exception in auth module"
    files := [str "auth.py"]
    insertions := 5
    deletions := 2
    authored := 0 }

/-- A commit touching the single file "f", used in the C7 examples. -/
def c7Commit : Commit :=
  { message := str "m", files := [str "f"], insertions := 0, deletions := 0,
    authored := 0 }

/-- Ten commits all touching file "f". -/
def c7TenCommits : List Commit := List.replicate 10 c7Commit

/-- Three commits all touching file "f". -/
def c7ThreeCommits : List Commit := List.replicate 3 c7Commit

/-- Title of the high-quality example section (from the repository's own
tests). -/
def exTitle : Str := str "Optimized Database Performance"

/-- Bullet point of the high-quality example section. -/
def exBullet : Str :=
  str "Reduced query latency by 45% and improved throughput 3x through Redis caching"

/-- Description of the high-quality example section: 20 to 80 words, no
passive-voice markers. -/
def exDesc : Str :=
  str "Implemented comprehensive database optimization using PostgreSQL query optimization and Redis caching layer. The changes affected 12 critical API endpoints and reduced P95 latency from 800ms to 440ms."

/-- A document whose single section has quality score 1, for the C10
witness. -/
def c10ExampleText : Str :=
  str "## Optimized Database Performance\n**Bullet Point:** Reduced query latency by 45% and improved throughput 3x through Redis caching <br />\n**Description:** Implemented comprehensive database optimization using PostgreSQL query optimization and Redis caching layer. The changes affected 12 critical API endpoints and reduced P95 latency from 800ms to 440ms."

/-- Three commits in one 7-day window touching two distinct files with a
repeated theme word, used to witness pattern promotion. -/
def c6ExampleCommits : List Commit :=
  [{ message := str "improve cache", files := [str "a"], insertions := 1,
     deletions := 0, authored := 0 },
   { message := str "improve speed", files := [str "b"], insertions := 2,
     deletions := 0, authored := 100 },
   { message := str "other", files := [str "a"], insertions := 3,
     deletions := 0, authored := 200 }]

/-! ## Claims -/

/-- Claim C6: every pattern emitted by the Pattern Detector comes from a
window of at least 3 commits whose union of affected files has more than
one distinct member and whose theme is non-empty; in particular no
pattern is ever emitted for a window touching a single distinct file. -/
theorem claim_C6 (commits : List Commit) (p : CommitPattern)
    (hp : p ∈ detect_commit_patterns commits) :
    3 ≤ p.commits.length ∧ 1 < p.files_affected.length ∧ p.theme ≠ [] := by
  unfold detect_commit_patterns at hp
  rw [mem_sortByComplexityDesc, List.mem_filterMap] at hp
  obtain ⟨w, -, hw⟩ := hp
  simp only [windowToPattern] at hw
  split at hw
  · exact absurd hw (by simp)
  · rename_i h3
    split at hw
    · rename_i th hth
      split at hw
      · rename_i hcond
        obtain rfl := Option.some_injective _ hw
        rw [Bool.and_eq_true, Bool.not_eq_true', List.isEmpty_eq_false,
          decide_eq_true_iff] at hcond
        exact ⟨Nat.le_of_not_lt h3, hcond.2, hcond.1⟩
      · exact absurd hw (by simp)
    · exact absurd hw (by simp)

/-- Witness for claim C6 at a concrete input that does produce a pattern. -/
theorem claim_C6_witness :
    3 ≤ ((detect_commit_patterns c6ExampleCommits).headI).commits.length ∧
    1 < ((detect_commit_patterns c6ExampleCommits).headI).files_affected.length ∧
    ((detect_commit_patterns c6ExampleCommits).headI).theme ≠ [] :=
  claim_C6 c6ExampleCommits ((detect_commit_patterns c6ExampleCommits).headI)
    (headI_mem (by decide))

/-- Claim C3: the Impact Signal Classifier emits at most one signal per
type; a signal of a type exists exactly when some commit message
case-insensitively contains a keyword of that type's bucket; every
emitted signal's confidence is `min 1 (matched_count/10 + total_changes/1000)`
over its type's matching commits; and the single commit
"Fix null pointer exception in auth module" yields exactly one signal, of
type reliability. -/
theorem claim_C3 (commits : List Commit) :
    (∀ ty : SigType,
      ((detect_impact_signals commits).filter (fun s => s.type == ty)).length ≤ 1) ∧
    (∀ ty : SigType,
      (∃ s ∈ detect_impact_signals commits, s.type = ty) ↔
        ∃ c ∈ commits, ∃ k ∈ bucketOf ty,
          containsSub (lowerStr c.message) k = true) ∧
    (∀ s ∈ detect_impact_signals commits,
      s.confidence =
        min 1 (((commits.filter (commitMatches (bucketOf s.type))).length : ℚ) / 10 +
          (totalChanges (commits.filter (commitMatches (bucketOf s.type))) : ℚ) / 1000)) ∧
    (detect_impact_signals [c3ExampleCommit]).map ImpactSignal.type =
      [SigType.reliability] := by
  refine ⟨?_, ?_, ?_, by decide⟩
  · intro ty
    calc ((detect_impact_signals commits).filter (fun s => s.type == ty)).length
        ≤ (keyword_groups.filter (fun g => g.1 == ty)).length :=
          filterMap_tag_le commits ty keyword_groups
      _ = 1 := keyword_groups_filter_len ty
  · intro ty
    constructor
    · rintro ⟨s, hs, hsty⟩
      rw [detect_impact_signals, List.mem_filterMap] at hs
      obtain ⟨g, hg, hgs⟩ := hs
      have h2 := keyword_groups_snd hg
      have hty := mkSignal_type hgs
      have hmem : (mkSignal commits g.1 g.2).isSome := by
        rw [hgs]; rfl
      rw [mkSignal_isSome_iff] at hmem
      obtain ⟨c, hc, hmatch⟩ := hmem
      rw [h2] at hmatch
      rw [hty] at hsty
      rw [← hsty]
      rw [commitMatches, List.any_eq_true] at hmatch
      obtain ⟨k, hk, hck⟩ := hmatch
      exact ⟨c, hc, k, hk, hck⟩
    · rintro ⟨c, hc, k, hk, hck⟩
      have hmatch : commitMatches (bucketOf ty) c = true := by
        rw [commitMatches, List.any_eq_true]
        exact ⟨k, hk, hck⟩
      have hsome : (mkSignal commits ty (bucketOf ty)).isSome :=
        mkSignal_isSome_iff.mpr ⟨c, hc, hmatch⟩
      obtain ⟨s, hs⟩ := Option.isSome_iff_exists.mp hsome
      refine ⟨s, ?_, mkSignal_type hs⟩
      rw [detect_impact_signals, List.mem_filterMap]
      exact ⟨(ty, bucketOf ty), bucket_mem_keyword_groups ty, hs⟩
  · intro s hs
    rw [detect_impact_signals, List.mem_filterMap] at hs
    obtain ⟨g, hg, hgs⟩ := hs
    have h2 := keyword_groups_snd hg
    have hty := mkSignal_type hgs
    have := mkSignal_confidence hgs
    rw [h2] at this
    rw [this, hty]

set_option maxRecDepth 40000 in
/-- Claim C7: when each commit's file list is duplicate-free, the
Ownership Estimator assigns each touched file `min 1 (commit_count/10)`;
every assigned value lies in the interval from 0 to 1; the compiled
payload keeps only entries strictly above 0.3; a file touched by exactly
10 commits gets 1.0 and one touched by 3 commits gets 0.3. -/
theorem claim_C7 (commits : List Commit)
    (hnd : ∀ c ∈ commits, c.files.Nodup) :
    (∀ f : Str, (∃ c ∈ commits, f ∈ c.files) →
      (calculate_file_ownership commits []).lookup f =
        some (min 1 ((touchCount f commits : ℚ) / 10))) ∧
    (∀ p ∈ calculate_file_ownership commits [], 0 ≤ p.2 ∧ p.2 ≤ 1) ∧
    (∀ p ∈ compile_ownership_map (calculate_file_ownership commits []),
      (3 : ℚ) / 10 < p.2) ∧
    (calculate_file_ownership c7TenCommits []).lookup (str "f") = some 1 ∧
    (calculate_file_ownership c7ThreeCommits []).lookup (str "f") =
      some (3 / 10) := by
  refine ⟨?_, ?_, ?_, by with_unfolding_all decide, by with_unfolding_all decide⟩
  · rintro f ⟨c, hc, hf⟩
    have htc : 0 < touchCount f commits := by
      rw [touchCount]
      refine List.length_pos.mpr (List.ne_nil_of_mem (List.mem_filter.mpr ⟨hc, ?_⟩))
      rw [List.contains, List.elem_eq_mem, decide_eq_true_iff]
      exact hf
    rw [calculate_file_ownership, lookup_map_ratio,
      lookup_file_commit_counts commits hnd f, if_pos htc]
    simp [pyMin_eq_min]
  · intro p hp
    rw [calculate_file_ownership, List.mem_map] at hp
    obtain ⟨q, -, rfl⟩ := hp
    rw [pyMin_eq_min]
    constructor
    · exact le_min (by norm_num) (by positivity)
    · exact min_le_left _ _
  · intro p hp
    rw [compile_ownership_map, List.mem_filter] at hp
    exact of_decide_eq_true hp.2

/-- Witness for claim C7: the ownership formula instantiated at the
three-commit example. -/
theorem claim_C7_witness :
    (calculate_file_ownership c7ThreeCommits []).lookup (str "f") =
      some (min 1 ((touchCount (str "f") c7ThreeCommits : ℚ) / 10)) :=
  (claim_C7 c7ThreeCommits (by decide)).1 (str "f") (by decide)

theorem sectionLoop_scores_nil (i : Nat) (secs : List PySection)
    (h : ∀ s ∈ secs,
      ((s.title.getD []).isEmpty || (s.bullet_point.getD []).isEmpty ||
        (s.description.getD []).isEmpty) = true) :
    (sectionLoop i secs).2.2 = [] := by
  induction secs generalizing i with
  | nil => rfl
  | cons s rest ih =>
    have hs := h s (List.mem_cons_self _ _)
    have hrest : ∀ x ∈ rest, ((x.title.getD []).isEmpty ||
        (x.bullet_point.getD []).isEmpty ||
        (x.description.getD []).isEmpty) = true :=
      fun x hx => h x (List.mem_cons_of_mem _ hx)
    simp only [sectionLoop]
    rw [if_pos hs]
    exact ih (i + 1) hrest

/-- Counterexample to claim C9 as stated: with an empty PR list there are
zero authored PRs, yet the analysis is the empty dict, which carries no
`avg_additions`/`avg_deletions` entries at all; likewise with no
extracted sections the quality report is the early no-sections dict,
which carries no `average_quality` entry. -/
theorem claim_C9_counterexample :
    analyze_pr_patterns [str "u"] [] = none ∧
    validate_output_quality [] = ValidationResult.noSections := by
  constructor
  · rfl
  · rfl

/-- Claim C9, amended: average computations never raise and default to 0
in the cases where they are computed at all — for a nonempty PR list
with zero authored PRs the analysis reports `avg_additions` and
`avg_deletions` of 0, and when sections are extracted but none is
scorable the quality report's `average_quality` is 0.  (An empty PR list
and a section-free text return early with dicts lacking those fields.) -/
theorem claim_C9_amended :
    (∀ (aliases : List Str) (prs : List PR), prs ≠ [] →
      prs.filter (fun pr => aliases.contains pr.user) = [] →
      ∃ r, analyze_pr_patterns aliases prs = some r ∧
        r.avg_additions = 0 ∧ r.avg_deletions = 0) ∧
    (∀ text : Str, extract_sections text ≠ [] →
      (∀ s ∈ extract_sections text,
        ((s.title.getD []).isEmpty || (s.bullet_point.getD []).isEmpty ||
          (s.description.getD []).isEmpty) = true) →
      ∃ r, validate_output_quality text = ValidationResult.report r ∧
        r.average_quality = 0) := by
  constructor
  · intro aliases prs hne hauth
    simp only [analyze_pr_patterns]
    rw [if_neg (by simpa [List.isEmpty_iff] using hne)]
    have hauth2 : prs.filter (fun pr => decide (pr.user ∈ aliases)) = [] := by
      simpa using hauth
    refine ⟨_, rfl, ?_, ?_⟩ <;>
      simp [hauth, hauth2]
  · intro text hne hall
    have hscores := sectionLoop_scores_nil 1 (extract_sections text) hall
    simp only [validate_output_quality]
    rw [if_neg (by simpa [List.isEmpty_iff] using hne)]
    refine ⟨_, rfl, ?_⟩
    simp [hscores]

/-- Witness for claim C9 (amended), at a one-PR list authored by someone
else and a text with one incomplete section. -/
theorem claim_C9_witness :
    (∃ r, analyze_pr_patterns [str "u"]
        [{ user := str "v", merged := true, additions := 3, deletions := 1 }] =
        some r ∧ r.avg_additions = 0 ∧ r.avg_deletions = 0) ∧
    (∃ r, validate_output_quality (str "## A") = ValidationResult.report r ∧
      r.average_quality = 0) :=
  ⟨claim_C9_amended.1 [str "u"]
      [{ user := str "v", merged := true, additions := 3, deletions := 1 }]
      (by decide) (by decide),
   claim_C9_amended.2 (str "## A") (by decide) (by decide)⟩

/-- Claim C10: the Quality Assessor's score always lies in the finite
set 0, 0.2, 0.3, 0.4, 0.5, 0.6, 0.7, 0.8, 1; no score strictly between
0.8 and 1 is attainable, so every score counted in the quality report's
high bucket (score above 0.8) equals exactly 1. -/
theorem claim_C10 :
    (∀ t b d : Str,
      (assess_section_quality t b d).score ∈
        ([0, 1/5, 3/10, 2/5, 1/2, 3/5, 7/10, 4/5, 1] : List ℚ) ∧
      ((4 : ℚ)/5 < (assess_section_quality t b d).score →
        (assess_section_quality t b d).score = 1)) ∧
    (∀ (text : Str) (q : ℚ), q ∈ quality_scores_of text →
      (4 : ℚ)/5 < q → q = 1) := by
  refine ⟨fun t b d => ⟨assess_score_mem t b d, assess_score_high t b d⟩, ?_⟩
  intro text q hq hgt
  obtain ⟨t, b, d, rfl⟩ := sectionLoop_scores_assess 1 _ q hq
  exact assess_score_high t b d hgt

set_option maxRecDepth 100000 in
/-- Witness for claim C10: the high-quality example section's score is
in the attainable set and, being above 0.8, equals 1. -/
theorem claim_C10_witness :
    (assess_section_quality exTitle exBullet exDesc).score ∈
      ([0, 1/5, 3/10, 2/5, 1/2, 3/5, 7/10, 4/5, 1] : List ℚ) ∧
    (assess_section_quality exTitle exBullet exDesc).score = 1 :=
  ⟨(claim_C10.1 exTitle exBullet exDesc).1,
   (claim_C10.1 exTitle exBullet exDesc).2 (by with_unfolding_all decide)⟩

/-- Claim C8: the Quality Assessor's score is the weighted sum
0.3·metrics + 0.3·technical terms + 0.2·length + 0.2·voice; text whose
lowered form contains "45%", "3x", "redis" and "postgresql" with a
20–80-word description scores above 0.7; and text meeting none of the
four criteria scores below 0.3 with at least one suggestion per failing
axis. -/
theorem claim_C8 (t b d : Str) :
    ((assess_section_quality t b d).score =
      (if (assess_section_quality t b d).has_metrics then (3 : ℚ)/10 else 0) +
      (if (assess_section_quality t b d).has_technical_terms then (3 : ℚ)/10 else 0) +
      (if (assess_section_quality t b d).appropriate_length then (1 : ℚ)/5 else 0) +
      (if (assess_section_quality t b d).active_voice then (1 : ℚ)/5 else 0)) ∧
    (containsSub (lowerStr (t ++ str " " ++ b ++ str " " ++ d)) (str "45%") = true →
     containsSub (lowerStr (t ++ str " " ++ b ++ str " " ++ d)) (str "3x") = true →
     containsSub (lowerStr (t ++ str " " ++ b ++ str " " ++ d)) (str "redis") = true →
     containsSub (lowerStr (t ++ str " " ++ b ++ str " " ++ d)) (str "postgresql") = true →
     20 ≤ (splitWS d).length → (splitWS d).length ≤ 80 →
     (7 : ℚ)/10 < (assess_section_quality t b d).score) ∧
    ((assess_section_quality t b d).has_metrics = false →
     (assess_section_quality t b d).has_technical_terms = false →
     (assess_section_quality t b d).appropriate_length = false →
     (assess_section_quality t b d).active_voice = false →
     (assess_section_quality t b d).score < (3 : ℚ)/10 ∧
     str "Add specific metrics (percentages, time improvements, scale)" ∈
       (assess_section_quality t b d).suggestions ∧
     str "Include more technical terminology and technologies" ∈
       (assess_section_quality t b d).suggestions ∧
     (str "Expand description with more technical details" ∈
        (assess_section_quality t b d).suggestions ∨
      str "Condense description to focus on key achievements" ∈
        (assess_section_quality t b d).suggestions) ∧
     str "Use more active voice constructions" ∈
       (assess_section_quality t b d).suggestions) := by
  refine ⟨assess_score_formula t b d, ?_, ?_⟩
  · intro h45 _ hred hpg hlen1 hlen2
    have hm : (assess_section_quality t b d).has_metrics = true := by
      rw [assess_has_metrics_eq]
      exact has_metrics_of_45 h45
    have htt : (assess_section_quality t b d).has_technical_terms = true := by
      rw [assess_htt_eq]
      exact tech_of_redis_postgresql hred hpg
    have hal : (assess_section_quality t b d).appropriate_length = true := by
      rw [assess_len_eq]
      simp [hlen1, hlen2]
    rw [assess_score_formula, hm, htt, hal]
    simp only [if_true]
    by_cases hv : (assess_section_quality t b d).active_voice = true
    · rw [if_pos hv]
      norm_num
    · rw [if_neg hv]
      norm_num
  · intro hm htt hal hav
    refine ⟨?_, ?_, ?_, ?_, ?_⟩
    · rw [assess_score_formula, hm, htt, hal, hav]
      norm_num
    · rw [assess_suggestions_eq, hm]
      simp
    · rw [assess_suggestions_eq, htt]
      simp
    · rw [assess_suggestions_eq, hal]
      by_cases hdw : (splitWS d).length < 20
      · exact Or.inl (by simp [hdw])
      · exact Or.inr (by simp [hdw])
    · rw [assess_suggestions_eq, hav]
      simp

set_option maxRecDepth 100000 in
/-- Witness for claim C8: the high-quality example section scores above
0.7. -/
theorem claim_C8_witness :
    (7 : ℚ)/10 < (assess_section_quality exTitle exBullet exDesc).score :=
  (claim_C8 exTitle exBullet exDesc).2.1 (by decide) (by decide) (by decide)
    (by decide) (by decide) (by decide)

/-- Claim C5: when a section body is non-empty and, after normalisation,
carries no bullet-point or description label, the Autofixer splits it at
the first sentence boundary — first sentence to the Bullet Point,
remainder (or, with no boundary, the whole body) to the Description —
and the input of the example autofixes as stated. -/
theorem claim_C5 :
    (∀ body : List Str,
      searchLS (labelSearchMatch (str "Bullet Point")) true
        (normalizeBody body) = false →
      searchLS (labelSearchMatch (str "Description")) true
        (normalizeBody body) = false →
      normalizeBody body ≠ [] →
      fixBody body =
        (match splitSentence (strip (normalizeBody body)) with
         | some (a, c) =>
           [str "**Bullet Point:** " ++ strip a ++ str " <br />",
            str "**Description:** " ++ strip c]
         | none =>
           [str "**Bullet Point:** " ++ strip (strip (normalizeBody body)) ++
              str " <br />",
            str "**Description:** " ++ strip (normalizeBody body)])) ∧
    validate_and_autofix_sections (str "## A\nThis is one. This is two.") =
      str "## A\n**Bullet Point:** This is one. <br />\n**Description:** This is two." := by
  constructor
  · intro body h1 h2 hne
    simp only [fixBody]
    rw [h1, h2]
    simp only [Bool.or_self, Bool.false_eq_true, if_false]
    rw [if_neg (by simpa [List.isEmpty_iff] using hne)]
    cases hs : splitSentence (strip (normalizeBody body)) with
    | none => rfl
    | some p =>
      obtain ⟨a, c⟩ := p
      rfl
  · decide

/-- Witness for claim C5 at the example body. -/
theorem claim_C5_witness :
    fixBody [str "This is one. This is two."] =
      (match splitSentence
          (strip (normalizeBody [str "This is one. This is two."])) with
       | some (a, c) =>
         [str "**Bullet Point:** " ++ strip a ++ str " <br />",
          str "**Description:** " ++ strip c]
       | none =>
         [str "**Bullet Point:** " ++
            strip (strip (normalizeBody [str "This is one. This is two."])) ++
            str " <br />",
          str "**Description:** " ++
            strip (normalizeBody [str "This is one. This is two."])]) :=
  claim_C5.1 [str "This is one. This is two."] (by decide) (by decide) (by decide)

/-- Counterexample to claim C2 as stated: the Autofixer does not remove
hyperlinks (an URL in a section body survives into the output; link
removal lives in the separate `remove_links` pass), and when the
extracted bullet value spans several physical lines the section's second
physical line is a `**Bullet Point:**` line that does not end with the
line-break marker. -/
theorem claim_C2_counterexample :
    containsSub (validate_and_autofix_sections (str "## A\nSee https://x.com now."))
      (str "https://") = true ∧
    (splitlines (validate_and_autofix_sections (str "## A\nfoo\nbar"))).get? 1 =
      some (str "**Bullet Point:** foo") ∧
    (str "<br />").isSuffixOf (str "**Bullet Point:** foo") = false := by
  refine ⟨by decide, by decide, by decide⟩

/-- Claim C2, amended: every section contributes, right after its H2
line, exactly two emitted entries — a `**Bullet Point:** … <br />` entry
and a `**Description:** …` entry (entries whose values contain newlines
span several physical lines once joined, so the physical three-line
template can be violated); no emitted line is a list-marker line;
hyperlinks are not removed by this function. -/
theorem claim_C2_amended :
    (∀ body : List Str, ∃ bp d : Str,
      fixBody body = [str "**Bullet Point:** " ++ bp ++ str " <br />",
                      str "**Description:** " ++ d]) ∧
    (∀ (lines : List Str) (l : Str), l ∈ autofixLines lines →
      isListItem l = false) :=
  ⟨fixBody_shape, autofixLines_no_list⟩

/-- Witness for claim C2 (amended) at a concrete document. -/
theorem claim_C2_witness :
    isListItem (str "## A") = false ∧
    (∃ bp d : Str,
      fixBody [str "x."] = [str "**Bullet Point:** " ++ bp ++ str " <br />",
                            str "**Description:** " ++ d]) :=
  ⟨claim_C2_amended.2 [str "## A", str "x."] (str "## A") (by decide),
   claim_C2_amended.1 [str "x."]⟩

/-- Counterexample to claim C4 as stated: a line bearing a lowercase
BOLD label, `**bullet point:** X`, is neither normalised to the
canonical bold label nor has its value extracted — the whole line is
treated as an unlabeled paragraph (the normalising patterns only match
un-bolded labels, and extraction matches the canonical case only). -/
theorem claim_C4_counterexample :
    validate_and_autofix_sections (str "## A\n**bullet point:** X") =
      str "## A\n**Bullet Point:** **bullet point:** X <br />\n**Description:** **bullet point:** X" ∧
    validate_and_autofix_sections (str "## A\n**bullet point:** X") ≠
      str "## A\n**Bullet Point:** X <br />\n**Description:** Summary not provided." := by
  constructor
  · decide
  · decide

set_option maxHeartbeats 1000000 in
/-- Claim C4, amended: within a section body, a line beginning with an
un-bolded case-insensitive "bullet point:" or "description:" label (with
the hyphen and spacing variants of the pattern) is normalised to the
canonical bold label and its value is extracted as that label's value;
bold-marked lowercase variants are not recognised.  Stated for a
single-line body with a clean value (no newline, no surrounding
whitespace, no trailing break markers). -/
theorem claim_C4_amended :
    (∀ s v : Str, bulletLabelMatch s = some (false, v) →
      strip s = s → '\n' ∉ v → lstrip v = v → rstrip v = v → stripBr v = v →
      fixBody [s] =
        [str "**Bullet Point:** " ++ v ++ str " <br />",
         str "**Description:** Summary not provided."]) ∧
    (∀ s v : Str, descLabelMatch s = some (false, v) →
      bulletLabelMatch s = none → '\n' ∉ s →
      strip s = s → '\n' ∉ v → lstrip v = v → rstrip v = v → stripBr v = v →
      fixBody [s] =
        [str "**Bullet Point:** " ++
           (match splitSentence v with
            | some (a, _) => a
            | none => v) ++ str " <br />",
         str "**Description:** " ++ v]) := by
  constructor
  · intro s v hm hstrip hnlv hls hrs hbr
    have hne : s ≠ [] := by
      intro h
      have h0 : bulletLabelMatch ([] : Str) = none := rfl
      rw [h, h0] at hm
      exact Option.noConfusion hm
    have hstripv : strip v = v := by rw [strip, hrs, hls]
    have hBP : normalizeBody [s] = str "**Bullet Point:** " ++ v := by
      rw [normalizeBody, joinNL_single, hstrip]
      rw [scanSub_head_match hm hnlv hne]
      have hdn : descLabelMatch (str "**Bullet Point:** " ++ v) = none := rfl
      have hnl2 : '\n' ∉ (str "**Bullet Point:** " ++ v) := by
        intro hmem
        rcases List.mem_append.mp hmem with h | h
        · exact absurd h (by decide)
        · exact hnlv h
      exact scanSub_none_no_nl hdn hnl2
    have hsrch : searchLS (labelSearchMatch (str "Bullet Point")) true
        (str "**Bullet Point:** " ++ v) = true := by
      show searchLS (labelSearchMatch (str "Bullet Point")) true
        ('*' :: (str "*Bullet Point:** " ++ v)) = true
      apply searchLS_cons_head
      have hpre2 : ((str "**" ++ str "Bullet Point" ++ str ":**")).isPrefixOf
          ('*' :: (str "*Bullet Point:** " ++ v)) = true := by
        rw [List.isPrefixOf_iff_prefix]
        exact ⟨' ' :: v, rfl⟩
      rw [labelSearchMatch, if_pos hpre2]
      rfl
    have hfl := findLabels_bullet v hls hnlv
    have hlvm : labelValueMatch (str "Bullet Point")
        (str "**Bullet Point:** " ++ v) = some (false, v, []) :=
      labelValueMatch_self (str "Bullet Point") v hls hnlv
    have hrem : scanSub bpLineRemMatch [] (str "**Bullet Point:** " ++ v) = [] := by
      have hbplm : bpLineRemMatch (str "**Bullet Point:** " ++ v) =
          some (false, []) := by
        rw [bpLineRemMatch, hlvm]
      have hne2 : str "**Bullet Point:** " ++ v ≠ [] := by
        intro h
        have hlen := congrArg List.length h
        rw [List.length_append, List.length_nil] at hlen
        have h18 : (str "**Bullet Point:** ").length = 18 := rfl
        rw [h18] at hlen
        omega
      have := @scanSub_head_match bpLineRemMatch []
        (str "**Bullet Point:** " ++ v) [] hbplm (by simp) hne2
      simpa using this
    simp only [fixBody]
    rw [hBP, hsrch]
    simp only [Bool.true_or, if_true]
    rw [hfl]
    have e1 : ((([((true : Bool), v)]).filter (fun p => p.1)).head?).map
        (fun p => stripBr (strip p.2)) = some (stripBr (strip v)) := rfl
    have e2 : ((([((true : Bool), v)]).filter (fun p => !p.1)).head?).map
        (fun p => stripBr (strip p.2)) = none := rfl
    rw [e1, e2, hstripv, hbr, hrem]
    with_unfolding_all rfl
  · intro s v hm hbm hnls hstrip hnlv hls hrs hbr
    have hne : s ≠ [] := by
      intro h
      have h0 : descLabelMatch ([] : Str) = none := rfl
      rw [h, h0] at hm
      exact Option.noConfusion hm
    have hstripv : strip v = v := by rw [strip, hrs, hls]
    have hNB : normalizeBody [s] = str "**Description:** " ++ v := by
      rw [normalizeBody, joinNL_single, hstrip]
      rw [scanSub_none_no_nl hbm hnls]
      exact scanSub_head_match hm hnlv hne
    have hnl2 : '\n' ∉ (str "*Description:** " ++ v) := by
      intro hmem
      rcases List.mem_append.mp hmem with h | h
      · exact absurd h (by decide)
      · exact hnlv h
    have hsrchB : searchLS (labelSearchMatch (str "Bullet Point")) true
        (str "**Description:** " ++ v) = false := by
      show searchLS (labelSearchMatch (str "Bullet Point")) true
        ('*' :: (str "*Description:** " ++ v)) = false
      apply searchLS_cons_false
      · have hpre : ((str "**" ++ str "Bullet Point" ++ str ":**")).isPrefixOf
            ('*' :: (str "*Description:** " ++ v)) = false := rfl
        rw [labelSearchMatch, if_neg (by rw [hpre]; exact Bool.false_ne_true)]
        rfl
      · decide
      · exact hnl2
    have hsrchD : searchLS (labelSearchMatch (str "Description")) true
        (str "**Description:** " ++ v) = true := by
      show searchLS (labelSearchMatch (str "Description")) true
        ('*' :: (str "*Description:** " ++ v)) = true
      apply searchLS_cons_head
      have hpre2 : ((str "**" ++ str "Description" ++ str ":**")).isPrefixOf
          ('*' :: (str "*Description:** " ++ v)) = true := by
        rw [List.isPrefixOf_iff_prefix]
        exact ⟨' ' :: v, rfl⟩
      rw [labelSearchMatch, if_pos hpre2]
      rfl
    have hfl := findLabels_description v hls hnlv
    simp only [fixBody]
    rw [hNB, hsrchB, hsrchD]
    simp only [Bool.false_or, if_true]
    rw [hfl]
    have e1 : ((([((false : Bool), v)]).filter (fun p => p.1)).head?).map
        (fun p => stripBr (strip p.2)) = none := rfl
    have e2 : ((([((false : Bool), v)]).filter (fun p => !p.1)).head?).map
        (fun p => stripBr (strip p.2)) = some (stripBr (strip v)) := rfl
    rw [e1, e2, hstripv, hbr]

/-- Witness for claim C4 (amended), at the label-variant line
"Bullet-Point: X". -/
theorem claim_C4_witness :
    fixBody [str "Bullet-Point: X"] =
      [str "**Bullet Point:** " ++ str "X" ++ str " <br />",
       str "**Description:** Summary not provided."] :=
  claim_C4_amended.1 (str "Bullet-Point: X") (str "X") (by decide) (by decide)
    (by decide) (by decide) (by decide) (by decide)

/-- Witness for claim C3: the confidence equation instantiated at the
example commit. -/
theorem claim_C3_witness :
    ((detect_impact_signals [c3ExampleCommit]).headI).confidence =
      min 1 ((([c3ExampleCommit].filter
          (commitMatches (bucketOf ((detect_impact_signals [c3ExampleCommit]).headI).type))).length : ℚ) / 10 +
        (totalChanges ([c3ExampleCommit].filter
          (commitMatches (bucketOf ((detect_impact_signals [c3ExampleCommit]).headI).type))) : ℚ) / 1000) :=
  (claim_C3 [c3ExampleCommit]).2.2.1
    ((detect_impact_signals [c3ExampleCommit]).headI) (headI_mem (by decide))

/-- Counterexample to claim C1 as stated: `validate_and_autofix_sections`
is not idempotent.  On `"## A\nB <br />"` the first pass keeps the
trailing `<br />` of the paragraph inside the bullet value and appends
another one, while the second pass strips the now-trailing break chain
before re-appending, so the two outputs differ. -/
theorem claim_C1_counterexample :
    validate_and_autofix_sections
        (validate_and_autofix_sections (str "## A\nB <br />")) ≠
      validate_and_autofix_sections (str "## A\nB <br />") := by
  decide

set_option maxHeartbeats 1000000 in
/-- Claim C1, amended: the function is not idempotent on arbitrary input
(see the counterexample), but every canonical single-section document —
an `## ` heading with a single-line title carrying no trailing
whitespace, followed by the canonical `**Bullet Point:** value <br />`
and `**Description:** value` lines whose values are nonempty,
single-line, free of surrounding whitespace and of trailing break
markers — is a fixed point of the function, so a second application
changes nothing on its own output for such documents. -/
theorem claim_C1_amended (t bp d : Str)
    (ht_nb : ∀ c ∈ t, isLineBoundary c = false)
    (ht_rs : rstrip t = t) (ht_ne : t ≠ [])
    (hbp_nb : ∀ c ∈ bp, isLineBoundary c = false)
    (hbp_ls : lstrip bp = bp) (hbp_ne : bp ≠ [])
    (hbp_br : stripBr (bp ++ str " <br />") = bp)
    (hd_nb : ∀ c ∈ d, isLineBoundary c = false)
    (hd_ls : lstrip d = d) (hd_rs : rstrip d = d) (hd_ne : d ≠ [])
    (hd_br : stripBr d = d) :
    validate_and_autofix_sections
        (str "## " ++ t ++ str "\n**Bullet Point:** " ++ bp ++
          str " <br />\n**Description:** " ++ d) =
      str "## " ++ t ++ str "\n**Bullet Point:** " ++ bp ++
        str " <br />\n**Description:** " ++ d := by
  have hbp_nl : '\n' ∉ bp := nl_not_mem hbp_nb
  have hd_nl : '\n' ∉ d := nl_not_mem hd_nb
  have hS : ∀ c ∈ str "## ", isLineBoundary c = false := by decide
  have hP : ∀ c ∈ str "**Bullet Point:** ", isLineBoundary c = false := by
    decide
  have hQ : ∀ c ∈ str "**Description:** ", isLineBoundary c = false := by
    decide
  have hBr : ∀ c ∈ str " <br />", isLineBoundary c = false := by decide
  have hdoc : str "## " ++ t ++ str "\n**Bullet Point:** " ++ bp ++
      str " <br />\n**Description:** " ++ d =
      (str "## " ++ t) ++ '\n' :: ((str "**Bullet Point:** " ++ bp ++
        str " <br />") ++ '\n' :: (str "**Description:** " ++ d)) := by
    rw [show str "\n**Bullet Point:** " =
        '\n' :: str "**Bullet Point:** " from rfl,
      show str " <br />\n**Description:** " =
        str " <br />" ++ ('\n' :: str "**Description:** ") from rfl]
    simp [List.append_assoc]
  have hl1_nb : ∀ c ∈ str "## " ++ t, isLineBoundary c = false := by
    intro c hc
    rcases List.mem_append.mp hc with h | h
    · exact hS c h
    · exact ht_nb c h
  have hl2_nb : ∀ c ∈ str "**Bullet Point:** " ++ bp ++ str " <br />",
      isLineBoundary c = false := by
    intro c hc
    rcases List.mem_append.mp hc with h | h
    · rcases List.mem_append.mp h with h2 | h2
      · exact hP c h2
      · exact hbp_nb c h2
    · exact hBr c h
  have hl3_nb : ∀ c ∈ str "**Description:** " ++ d,
      isLineBoundary c = false := by
    intro c hc
    rcases List.mem_append.mp hc with h | h
    · exact hQ c h
    · exact hd_nb c h
  have hl3_ne : str "**Description:** " ++ d ≠ [] :=
    fun h => absurd (List.append_eq_nil.mp h).1 (by decide)
  have hstrip_l1 : strip (str "## " ++ t) = str "## " ++ t := by
    rw [strip, rstrip_append_self (str "## ") ht_rs ht_ne,
      lstrip_append_self t (by decide) (by decide)]
  have hLI1 : isListItem (str "## " ++ t) = false := by
    rw [show str "## " ++ t = '#' :: (str "# " ++ t) from rfl]
    exact isListItem_hash _
  have hBl1 : isBlank (str "## " ++ t) = false := by
    rw [isBlank, hstrip_l1]
    rfl
  have hSS1 : isSectionStart (str "## " ++ t) = true := by
    rw [isSectionStart, List.isPrefixOf_iff_prefix]
    exact ⟨t, rfl⟩
  have hH1 : (str "# ").isPrefixOf (str "## " ++ t) = false := rfl
  have hSS2 : isSectionStart (str "**Bullet Point:** " ++ bp ++
      str " <br />") = false := rfl
  have hLI2 : isListItem (str "**Bullet Point:** " ++ bp ++
      str " <br />") = false := by
    rw [show str "**Bullet Point:** " ++ bp ++ str " <br />" =
      '*' :: (str "*Bullet Point:** " ++ bp ++ str " <br />") from rfl]
    exact isListItem_star _
  have hSS3 : isSectionStart (str "**Description:** " ++ d) = false := rfl
  have hLI3 : isListItem (str "**Description:** " ++ d) = false := by
    rw [show str "**Description:** " ++ d =
      '*' :: (str "*Description:** " ++ d) from rfl]
    exact isListItem_star _
  have hempty : (str "## " ++ t ++ str "\n**Bullet Point:** " ++ bp ++
      str " <br />\n**Description:** " ++ d).isEmpty = false := rfl
  rw [validate_and_autofix_sections,
    if_neg (by rw [hempty]; exact Bool.false_ne_true), hdoc,
    splitlines_three _ _ _ hl1_nb hl2_nb hl3_nb hl3_ne,
    autofixLines_not_h1 _ hH1,
    autofixMach_none_section _ hLI1 hBl1 hSS1, hstrip_l1,
    autofixMach_some_push _ _ hSS2 hLI2,
    autofixMach_some_push _ _ hSS3 hLI3,
    autofixMach_some_nil_two,
    fixBody_canonical bp d hbp_nl hbp_ls hbp_ne hbp_br hd_nl hd_ls hd_rs
      hd_ne hd_br,
    joinNL_triple]

/-- Witness for claim C1 (amended): the canonical document
"## A\n**Bullet Point:** B. <br />\n**Description:** C." is a fixed
point. -/
theorem claim_C1_witness :
    validate_and_autofix_sections
        (str "## " ++ str "A" ++ str "\n**Bullet Point:** " ++ str "B." ++
          str " <br />\n**Description:** " ++ str "C.") =
      str "## " ++ str "A" ++ str "\n**Bullet Point:** " ++ str "B." ++
        str " <br />\n**Description:** " ++ str "C." :=
  claim_C1_amended (str "A") (str "B.") (str "C.")
    (by decide) (by decide) (by decide) (by decide) (by decide) (by decide)
    (by decide) (by decide) (by decide) (by decide) (by decide) (by decide)

end RepoBullets
